import Mathlib

/-!
Shallow embedding of the bitstream-go repository (bit stream reader/writer).

Reader definitions are translated from src/reader.go (the authoritative
reader).  Writer definitions are translated from the current writer version
in src/unnamed/part_001 (the version carrying WriteNBitsOfUint16/32 and the
nBits guards).  Go byte values are modelled as Nat with an invariant < 256;
uintN arithmetic that can wrap carries an explicit % 2^N at the places the
Go code performs a typed operation that can overflow.  Go methods mutate
their receiver in place and return (value, error); we model them as
functions returning (Except Err value) x State, so that the state after an
early error return is visible.  The byte source collaborator is modelled
with bytes.Reader semantics (the collaborator used by the repository's
tests): a read returns min(len, requested) bytes and fails with EOF exactly
when no byte remains.  The byte sink collaborator is modelled with
bytes.Buffer semantics: writing one byte always succeeds.
-/

namespace Bitstream

/-- Error kinds surfaced by the operations: io.EOF from the source,
the nBits-too-large errors, the not-implemented alignRight error and the
internal panic for insufficient bits in the current byte. -/
inductive Err where
  | eof : Err
  | tooLarge : Err
  | notImplemented : Err
  | panicked : Err
  deriving DecidableEq, Repr

/-- ReaderOptions from src/reader.go. -/
structure ReaderOptions where
  BufferSize : Nat
  deriving DecidableEq, Repr

/-- DefaultBufferSize from src/reader.go. -/
def DefaultBufferSize : Nat := 1024

/-- GetBufferSize from src/reader.go; a nil options pointer is modelled as
none. -/
def GetBufferSize : Option ReaderOptions → Nat
  | none => DefaultBufferSize
  | some opt => if opt.BufferSize = 0 then DefaultBufferSize else opt.BufferSize

/-- Reader state from src/reader.go.  buf == nil is modelled as the empty
list (with bufLen = 0 the two are observationally identical in the source:
isBufEmpty is true for both and fillBuf replaces the buffer wholesale).
src is the remaining content of the underlying byte source. -/
structure Reader where
  src : List Nat
  buf : List Nat
  bufLen : Nat
  currByteIndex : Nat
  currBitIndex : Nat
  opt : Option ReaderOptions
  deriving DecidableEq, Repr

/-- NewReader from src/reader.go. -/
def NewReader (src : List Nat) (opt : Option ReaderOptions) : Reader :=
  { src := src, buf := [], bufLen := 0, currByteIndex := 0, currBitIndex := 7,
    opt := opt }

/-- isBufEmpty from src/reader.go (the buf == nil check is subsumed by
bufLen = 0 <= currByteIndex in this model, see Reader). -/
def Reader.isBufEmpty (r : Reader) : Bool := decide (r.bufLen ≤ r.currByteIndex)

/-- fillBuf from src/reader.go.  Go allocates a zero-filled byte slice of
the configured size and reads into it, so the buffer is the bytes read
padded with zeros up to the configured size; bufLen is the count actually
read.  With bytes.Reader semantics the read fails exactly when the source
is exhausted. -/
def Reader.fillBuf (r : Reader) : Except Err Unit × Reader :=
  let n := GetBufferSize r.opt
  if r.src.isEmpty then (.error .eof, r)
  else
    (.ok (), { r with
      src := r.src.drop n,
      buf := r.src.take n ++ List.replicate (n - r.src.length) 0,
      bufLen := min n r.src.length,
      currByteIndex := 0,
      currBitIndex := 7 })

/-- fillBufIfNeeded from src/reader.go. -/
def Reader.fillBufIfNeeded (r : Reader) : Except Err Unit × Reader :=
  if r.isBufEmpty then r.fillBuf else (.ok (), r)

/-- forwardIndecies from src/reader.go, including its exact uint8
arithmetic (in particular currBitIndex is set to 8 - (nBits mod 8), not
7 - ((nBits - 1) mod 8)). -/
def Reader.forwardIndecies (r : Reader) (nBits : Nat) : Reader :=
  if nBits ≤ r.currBitIndex then { r with currBitIndex := r.currBitIndex - nBits }
  else
    let nBits2 := nBits - r.currBitIndex
    let nBytes := nBits2 / 8 + 1
    let bitsToGo := nBits2 % 8
    { r with currByteIndex := r.currByteIndex + nBytes, currBitIndex := 8 - bitsToGo }

/-- ReadBit from src/reader.go.  uint8(1 << currBitIndex) is modelled with
an explicit mod 256 for the wrap Go performs on a uint8 shift. -/
def Reader.ReadBit (r : Reader) : Except Err Nat × Reader :=
  match r.fillBufIfNeeded with
  | (.error e, r1) => (.error e, r1)
  | (.ok _, r1) =>
    let b := r1.buf.getD r1.currByteIndex 0
    let mask := (1 <<< r1.currBitIndex) % 256
    (.ok ((b &&& mask) >>> r1.currBitIndex), r1.forwardIndecies 1)

/-- mustReadNBitsInCurrentByte from src/reader.go.  The Go panic for
insufficient bits is modelled as the error Err.panicked.  The uint8 mask
(1 << (currBitIndex+1)) - 1 is modelled with the mod 256 of the uint8
arithmetic (for currBitIndex = 7 Go wraps 1 << 8 to 0 and 0 - 1 to 255,
which coincides with (2^8 - 1) % 256). -/
def Reader.mustReadNBitsInCurrentByte (r : Reader) (nBits : Nat) :
    Except Err Nat × Reader :=
  if nBits = 0 then (.ok 0, r)
  else if r.currBitIndex < nBits - 1 then (.error .panicked, r)
  else
    let b := r.buf.getD r.currByteIndex 0
    let mask := ((1 <<< (r.currBitIndex + 1)) - 1) % 256
    (.ok ((b &&& mask) >>> (r.currBitIndex - (nBits - 1))), r.forwardIndecies nBits)

/-- ReadNBitsAsUint8 from src/reader.go. -/
def Reader.ReadNBitsAsUint8 (r : Reader) (nBits : Nat) : Except Err Nat × Reader :=
  if nBits = 0 then (.ok 0, r)
  else if 8 < nBits then (.error .tooLarge, r)
  else match r.fillBufIfNeeded with
  | (.error e, r1) => (.error e, r1)
  | (.ok _, r1) =>
    let rb := r1.currBitIndex + 1
    if h : nBits ≤ rb then r1.mustReadNBitsInCurrentByte nBits
    else
      let nBits2 := nBits - rb
      match r1.mustReadNBitsInCurrentByte rb with
      | (.error e, r2) => (.error e, r2)
      | (.ok b1, r2) =>
        match r2.ReadNBitsAsUint8 nBits2 with
        | (.error e, r3) => (.error e, r3)
        | (.ok b2, r3) => (.ok (((b1 <<< nBits2) % 256) ||| b2), r3)
termination_by nBits
decreasing_by simp_wf; omega

/-- ReadUint8 from src/reader.go. -/
def Reader.ReadUint8 (r : Reader) : Except Err Nat × Reader :=
  r.ReadNBitsAsUint8 8

/-- ReadNBitsAsUint16BE from src/reader.go.  The Go reassignments of
nBits2/nBits3 under the nBits2 > 8 test are expressed functionally. -/
def Reader.ReadNBitsAsUint16BE (r : Reader) (nBits : Nat) :
    Except Err Nat × Reader :=
  if nBits = 0 then (.ok 0, r)
  else if nBits ≤ 8 then r.ReadNBitsAsUint8 nBits
  else if 16 < nBits then (.error .tooLarge, r)
  else match r.fillBufIfNeeded with
  | (.error e, r1) => (.error e, r1)
  | (.ok _, r1) =>
    let rb := r1.currBitIndex + 1
    let nBits1 := rb
    let c2 := nBits - rb
    let nBits2 := if 8 < c2 then 8 else c2
    let nBits3 := if 8 < c2 then c2 - 8 else 0
    match r1.mustReadNBitsInCurrentByte nBits1 with
    | (.error e, r2) => (.error e, r2)
    | (.ok b1, r2) =>
      match r2.ReadNBitsAsUint8 nBits2 with
      | (.error e, r3) => (.error e, r3)
      | (.ok b2, r3) =>
        match r3.ReadNBitsAsUint8 nBits3 with
        | (.error e, r4) => (.error e, r4)
        | (.ok b3, r4) =>
          (.ok ((((b1 <<< (nBits2 + nBits3)) % 65536) |||
                 ((b2 <<< nBits3) % 65536)) ||| b3), r4)

/-- ReadUint16BE from src/reader.go. -/
def Reader.ReadUint16BE (r : Reader) : Except Err Nat × Reader :=
  r.ReadNBitsAsUint16BE 16

/-- ReadNBitsAsUint32BE from src/reader.go, with the nBits3/4/5 clamping
chain expressed functionally. -/
def Reader.ReadNBitsAsUint32BE (r : Reader) (nBits : Nat) :
    Except Err Nat × Reader :=
  if nBits = 0 then (.ok 0, r)
  else if nBits ≤ 16 then r.ReadNBitsAsUint16BE nBits
  else if 32 < nBits then (.error .tooLarge, r)
  else match r.fillBufIfNeeded with
  | (.error e, r1) => (.error e, r1)
  | (.ok _, r1) =>
    let rb := r1.currBitIndex + 1
    let nBits1 := rb
    let nBits2 := 8
    let c3 := nBits - rb - 8
    let nBits3 := if 8 < c3 then 8 else c3
    let c4 := if 8 < c3 then c3 - 8 else 0
    let nBits4 := if 8 < c4 then 8 else c4
    let nBits5 := if 8 < c4 then c4 - 8 else 0
    match r1.mustReadNBitsInCurrentByte nBits1 with
    | (.error e, r2) => (.error e, r2)
    | (.ok b1, r2) =>
      match r2.ReadNBitsAsUint8 nBits2 with
      | (.error e, r3) => (.error e, r3)
      | (.ok b2, r3) =>
        match r3.ReadNBitsAsUint8 nBits3 with
        | (.error e, r4) => (.error e, r4)
        | (.ok b3, r4) =>
          match r4.ReadNBitsAsUint8 nBits4 with
          | (.error e, r5) => (.error e, r5)
          | (.ok b4, r5) =>
            match r5.ReadNBitsAsUint8 nBits5 with
            | (.error e, r6) => (.error e, r6)
            | (.ok b5, r6) =>
              let t1 := (b1 <<< (nBits2 + nBits3 + nBits4 + nBits5)) % 4294967296
              let t2 := (b2 <<< (nBits3 + nBits4 + nBits5)) % 4294967296
              let t3 := (b3 <<< (nBits4 + nBits5)) % 4294967296
              let t4 := (b4 <<< nBits5) % 4294967296
              (.ok ((((t1 ||| t2) ||| t3) ||| t4) ||| b5), r6)

/-- ReadUint32BE from src/reader.go. -/
def Reader.ReadUint32BE (r : Reader) : Except Err Nat × Reader :=
  r.ReadNBitsAsUint32BE 32

/-- ReadNBitsAsUint64BE from src/reader.go, with the nBits5..nBits9
clamping chain expressed functionally. -/
def Reader.ReadNBitsAsUint64BE (r : Reader) (nBits : Nat) :
    Except Err Nat × Reader :=
  if nBits = 0 then (.ok 0, r)
  else if nBits ≤ 32 then r.ReadNBitsAsUint32BE nBits
  else if 64 < nBits then (.error .tooLarge, r)
  else match r.fillBufIfNeeded with
  | (.error e, r1) => (.error e, r1)
  | (.ok _, r1) =>
    let rb := r1.currBitIndex + 1
    let nBits1 := rb
    let nBits2 := 8
    let nBits3 := 8
    let nBits4 := 8
    let c5 := nBits - rb - 24
    let nBits5 := if 8 < c5 then 8 else c5
    let c6 := if 8 < c5 then c5 - 8 else 0
    let nBits6 := if 8 < c6 then 8 else c6
    let c7 := if 8 < c6 then c6 - 8 else 0
    let nBits7 := if 8 < c7 then 8 else c7
    let c8 := if 8 < c7 then c7 - 8 else 0
    let nBits8 := if 8 < c8 then 8 else c8
    let nBits9 := if 8 < c8 then c8 - 8 else 0
    match r1.mustReadNBitsInCurrentByte nBits1 with
    | (.error e, r2) => (.error e, r2)
    | (.ok b1, r2) =>
      match r2.ReadNBitsAsUint8 nBits2 with
      | (.error e, r3) => (.error e, r3)
      | (.ok b2, r3) =>
        match r3.ReadNBitsAsUint8 nBits3 with
        | (.error e, r4) => (.error e, r4)
        | (.ok b3, r4) =>
          match r4.ReadNBitsAsUint8 nBits4 with
          | (.error e, r5) => (.error e, r5)
          | (.ok b4, r5) =>
            match r5.ReadNBitsAsUint8 nBits5 with
            | (.error e, r6) => (.error e, r6)
            | (.ok b5, r6) =>
              match r6.ReadNBitsAsUint8 nBits6 with
              | (.error e, r7) => (.error e, r7)
              | (.ok b6, r7) =>
                match r7.ReadNBitsAsUint8 nBits7 with
                | (.error e, r8) => (.error e, r8)
                | (.ok b7, r8) =>
                  match r8.ReadNBitsAsUint8 nBits8 with
                  | (.error e, r9) => (.error e, r9)
                  | (.ok b8, r9) =>
                    match r9.ReadNBitsAsUint8 nBits9 with
                    | (.error e, r10) => (.error e, r10)
                    | (.ok b9, r10) =>
                      let t1 := (b1 <<< (nBits2 + nBits3 + nBits4 + nBits5 + nBits6 + nBits7 + nBits8 + nBits9)) % 18446744073709551616
                      let t2 := (b2 <<< (nBits3 + nBits4 + nBits5 + nBits6 + nBits7 + nBits8 + nBits9)) % 18446744073709551616
                      let t3 := (b3 <<< (nBits4 + nBits5 + nBits6 + nBits7 + nBits8 + nBits9)) % 18446744073709551616
                      let t4 := (b4 <<< (nBits5 + nBits6 + nBits7 + nBits8 + nBits9)) % 18446744073709551616
                      let t5 := (b5 <<< (nBits6 + nBits7 + nBits8 + nBits9)) % 18446744073709551616
                      let t6 := (b6 <<< (nBits7 + nBits8 + nBits9)) % 18446744073709551616
                      let t7 := (b7 <<< (nBits8 + nBits9)) % 18446744073709551616
                      let t8 := (b8 <<< nBits9) % 18446744073709551616
                      (.ok ((((((((t1 ||| t2) ||| t3) ||| t4) ||| t5) ||| t6) ||| t7) ||| t8) ||| b9), r10)

/-- ReadUint64BE from src/reader.go. -/
def Reader.ReadUint64BE (r : Reader) : Except Err Nat × Reader :=
  r.ReadNBitsAsUint64BE 64

/-- ReadOptions from src/reader.go. -/
structure ReadOptions where
  AlignRight : Bool
  PadOne : Bool
  deriving DecidableEq, Repr

/-- uint8 subtraction with Go wrap-around semantics (valid for b <= 256,
which covers every use below). -/
def sub8 (a b : Nat) : Nat := (a + 256 - b) % 256

/-- The for nBits >= 8 loop of ReadNBits from src/reader.go; returns the
remaining nBits together with the pending output byte and the bytes
emitted so far. -/
def Reader.readNBitsLoop (r : Reader) (nBits tempBit tempByte : Nat)
    (result : List Nat) : Except Err (Nat × Nat × List Nat) × Reader :=
  if h : 8 ≤ nBits then
    match r.fillBufIfNeeded with
    | (.error e, r1) => (.error e, r1)
    | (.ok _, r1) =>
      match r1.mustReadNBitsInCurrentByte 8 with
      | (.error e, r2) => (.error e, r2)
      | (.ok b, r2) =>
        let b1 := b >>> tempBit
        let b2 := (b <<< (8 - tempBit)) % 256
        r2.readNBitsLoop (nBits - 8) tempBit b2 (result ++ [tempByte ||| b1])
  else (.ok (nBits, tempByte, result), r)
termination_by nBits
decreasing_by simp_wf; omega

/-- ReadNBits from src/reader.go (the authoritative version, which
answers a not-implemented error when alignRight is requested).  The final
segment's uint8 subtractions can wrap in Go and are modelled with sub8;
Go shifts by 8 or more produce 0, which the mod-256 arithmetic on Nat
reproduces.  A nil result slice is modelled as the empty list. -/
def Reader.ReadNBits (r : Reader) (nBits : Nat) (opt : Option ReadOptions) :
    Except Err (List Nat) × Reader :=
  if nBits = 0 then (.ok [], r)
  else match r.fillBufIfNeeded with
  | (.error e, r1) => (.error e, r1)
  | (.ok _, r1) =>
    let padOne := match opt with | some o => o.PadOne | none => false
    let alignRight := match opt with | some o => o.AlignRight | none => false
    let rb := r1.currBitIndex + 1
    let bitsToRead := if nBits ≤ rb then nBits else rb
    match r1.mustReadNBitsInCurrentByte bitsToRead with
    | (.error e, r2) => (.error e, r2)
    | (.ok t, r2) =>
      let tempByte := (t <<< (8 - bitsToRead)) % 256
      let tempBit := bitsToRead
      let nBits1 := nBits - bitsToRead
      let start : List Nat × Nat × Nat :=
        if tempBit = 8 then ([tempByte], 0, 0) else ([], tempByte, tempBit)
      match r2.readNBitsLoop nBits1 start.2.2 start.2.1 start.1 with
      | (.error e, r3) => (.error e, r3)
      | (.ok (nRem, tempByte1, result1), r3) =>
        if 0 < nRem then
          match r3.fillBufIfNeeded with
          | (.error e, r4) => (.error e, r4)
          | (.ok _, r4) =>
            match r4.mustReadNBitsInCurrentByte nRem with
            | (.error e, r5) => (.error e, r5)
            | (.ok b, r5) =>
              let b1 := b >>> (sub8 nRem (8 - start.2.2))
              let b2 := (b <<< (sub8 8 (sub8 nRem (8 - start.2.2)))) % 256
              let result2 := result1 ++ [tempByte1 ||| b1]
              let result3 :=
                if 8 - start.2.2 < nRem then
                  result2 ++ [if padOne then b2 ||| (255 >>> start.2.2) else b2]
                else result2
              if alignRight then (.error .notImplemented, r5)
              else (.ok result3, r5)
        else
          let result2 := if 0 < start.2.2 then result1 ++ [tempByte1] else result1
          if alignRight then (.error .notImplemented, r3)
          else (.ok result2, r3)

/-- Writer state from src/unnamed/part_001.  The one-byte accumulator
currByte[0] is the field currByte; dst is the content of the byte sink
(bytes.Buffer semantics, so a one-byte write always succeeds and appends). -/
structure Writer where
  dst : List Nat
  currByte : Nat
  currBitIndex : Nat
  deriving DecidableEq, Repr

/-- NewWriter from src/unnamed/part_001, generalised over the sink's
initial content (the examples pass an empty bytes.Buffer). -/
def NewWriter (dst : List Nat) : Writer :=
  { dst := dst, currByte := 0, currBitIndex := 7 }

/-- Flush from src/unnamed/part_001.  With the bytes.Buffer sink the
write of the single accumulator byte always succeeds (nWritten = 1), so
the error paths of the Go function cannot trigger and Flush is pure. -/
def Writer.Flush (w : Writer) : Writer :=
  { dst := w.dst ++ [w.currByte], currByte := 0, currBitIndex := 7 }

/-- WriteBit from src/unnamed/part_001. -/
def Writer.WriteBit (w : Writer) (bit : Nat) : Writer :=
  let w1 :=
    if bit &&& 1 ≠ 0 then
      { w with currByte := w.currByte ||| (((bit &&& 1) <<< w.currBitIndex) % 256) }
    else w
  if 0 < w1.currBitIndex then { w1 with currBitIndex := w1.currBitIndex - 1 }
  else w1.Flush

/-- WriteBool (boolean write as a single bit). -/
def Writer.WriteBool (w : Writer) (b : Bool) : Writer :=
  w.WriteBit (if b then 1 else 0)

/-- WriteNBitsOfUint8 from src/unnamed/part_001 (the current version,
carrying the nBits = 0 and nBits > 8 guards).  uint8 shifts are modelled
with mod 256; the uint8 masks wrap exactly as ((1 <<< k) - 1) % 256. -/
def Writer.WriteNBitsOfUint8 (w : Writer) (nBits val : Nat) :
    Except Err Unit × Writer :=
  if nBits = 0 then (.ok (), w)
  else if 8 < nBits then (.error .tooLarge, w)
  else
    let wb := w.currBitIndex + 1
    if nBits ≤ wb then
      let mask := ((1 <<< nBits) - 1) % 256
      let w1 := { w with currByte := w.currByte ||| (((val &&& mask) <<< (wb - nBits)) % 256) }
      if nBits = wb then (.ok (), w1.Flush)
      else (.ok (), { w1 with currBitIndex := w1.currBitIndex - nBits })
    else
      let b1 := val >>> (nBits - wb)
      let b2 := (val <<< (8 - (nBits - wb))) % 256
      let b1Mask := ((1 <<< (w.currBitIndex + 1)) - 1) % 256
      let w1 := ({ w with currByte := w.currByte ||| (b1 &&& b1Mask) }).Flush
      (.ok (), { w1 with currByte := b2, currBitIndex := 7 - (nBits - wb) })

/-- WriteUint8 from src/unnamed/part_001. -/
def Writer.WriteUint8 (w : Writer) (val : Nat) : Except Err Unit × Writer :=
  w.WriteNBitsOfUint8 8 val

/-- WriteNBitsOfUint16 from src/unnamed/part_001.  The Go uint8(val)
truncation on delegation is the mod 256; the uint16 mask arithmetic wraps
mod 65536; the b2Bits/b3Bits reassignments under the b2Bits > 8 test are
expressed functionally. -/
def Writer.WriteNBitsOfUint16 (w : Writer) (nBits val : Nat) :
    Except Err Unit × Writer :=
  if nBits = 0 then (.ok (), w)
  else if nBits ≤ 8 then w.WriteNBitsOfUint8 nBits (val % 256)
  else if 16 < nBits then (.error .tooLarge, w)
  else
    let wb := w.currBitIndex + 1
    let b1Bits := wb
    let c2 := nBits - b1Bits
    let b2Bits := if 8 < c2 then 8 else c2
    let b3Bits := if 8 < c2 then c2 - 8 else 0
    let b1Mask := (((1 <<< b1Bits) - 1) <<< (b2Bits + b3Bits)) % 65536
    let b2Mask := (((1 <<< b2Bits) - 1) <<< b3Bits) % 65536
    let b3Mask := ((1 <<< b3Bits) - 1) % 65536
    let b1 := ((val &&& b1Mask) >>> (b2Bits + b3Bits)) % 256
    let b2 := (((val &&& b2Mask) >>> b3Bits) <<< (8 - b2Bits)) % 256
    let b3 := ((val &&& b3Mask) <<< (8 - b3Bits)) % 256
    let w1 := ({ w with currByte := w.currByte ||| b1 }).Flush
    if b3Bits = 0 then
      let w2 := { w1 with currByte := b2 }
      if b2Bits = 8 then (.ok (), w2.Flush)
      else (.ok (), { w2 with currBitIndex := 7 - b2Bits })
    else
      let w2 := ({ w1 with currByte := b2 }).Flush
      (.ok (), { w2 with currByte := b3, currBitIndex := 7 - b3Bits })

/-- WriteUint16 from src/unnamed/part_001 (called WriteUint16BE in the
doc examples). -/
def Writer.WriteUint16 (w : Writer) (val : Nat) : Except Err Unit × Writer :=
  w.WriteNBitsOfUint16 16 val

/-- WriteNBitsOfUint32 from src/unnamed/part_001, with the
b3Bits/b4Bits/b5Bits clamping chain and the conditional flush chain
expressed functionally. -/
def Writer.WriteNBitsOfUint32 (w : Writer) (nBits val : Nat) :
    Except Err Unit × Writer :=
  if nBits = 0 then (.ok (), w)
  else if nBits ≤ 16 then w.WriteNBitsOfUint16 nBits (val % 65536)
  else if 32 < nBits then (.error .tooLarge, w)
  else
    let wb := w.currBitIndex + 1
    let b1Bits := wb
    let b2Bits := 8
    let c3 := nBits - 8 - wb
    let b3Bits := if 8 < c3 then 8 else c3
    let c4 := if 8 < c3 then c3 - 8 else 0
    let b4Bits := if 8 < c4 then 8 else c4
    let b5Bits := if 8 < c4 then c4 - 8 else 0
    let b1Mask := (((1 <<< b1Bits) - 1) <<< (b2Bits + b3Bits + b4Bits + b5Bits)) % 4294967296
    let b2Mask := (((1 <<< b2Bits) - 1) <<< (b3Bits + b4Bits + b5Bits)) % 4294967296
    let b3Mask := (((1 <<< b3Bits) - 1) <<< (b4Bits + b5Bits)) % 4294967296
    let b4Mask := (((1 <<< b4Bits) - 1) <<< b5Bits) % 4294967296
    let b5Mask := ((1 <<< b5Bits) - 1) % 4294967296
    let b1 := ((val &&& b1Mask) >>> (b2Bits + b3Bits + b4Bits + b5Bits)) % 256
    let b2 := (((val &&& b2Mask) >>> (b3Bits + b4Bits + b5Bits)) <<< (8 - b2Bits)) % 256
    let b3 := (((val &&& b3Mask) >>> (b4Bits + b5Bits)) <<< (8 - b3Bits)) % 256
    let b4 := (((val &&& b4Mask) >>> b5Bits) <<< (8 - b4Bits)) % 256
    let b5 := ((val &&& b5Mask) <<< (8 - b5Bits)) % 256
    let w1 := ({ w with currByte := w.currByte ||| b1 }).Flush
    let w2 := ({ w1 with currByte := b2 }).Flush
    let w3 :=
      if b3Bits = 8 then ({ w2 with currByte := b3 }).Flush
      else { w2 with currByte := b3 }
    if b4Bits = 0 then
      (.ok (), if b3Bits = 8 then w3 else { w3 with currBitIndex := 7 - b3Bits })
    else
      let w4 :=
        if b4Bits = 8 then ({ w3 with currByte := b4 }).Flush
        else { w3 with currByte := b4 }
      if b5Bits = 0 then
        (.ok (), if b4Bits = 8 then w4 else { w4 with currBitIndex := 7 - b4Bits })
      else
        (.ok (), { w4 with currByte := b5, currBitIndex := 7 - b5Bits })

/-- WriteUint32 from src/unnamed/part_001. -/
def Writer.WriteUint32 (w : Writer) (val : Nat) : Except Err Unit × Writer :=
  w.WriteNBitsOfUint32 32 val

/-- Modelled from the spec: WriteNBitsOfUint64 is part of the repository's
public write API (spec sections 4.2 and 6 require writeBitsOfUintW for W up
to 64) but its source file is not present under src/.  Following the
spec's words: it fails with a width-exceeded error for nBits > 64,
delegates to the narrower width when nBits fits in 32 bits, and otherwise
splits the value into a high part of wb bits written into the current
byte followed by a flush and per-byte left-aligned fragments (up to 9
bytes for a 64-bit value), flushing each byte that becomes completely
filled and leaving a partially filled final byte pending — the exact
scheme of the source's WriteNBitsOfUint32 extended to nine fragments,
mirroring the source's ReadNBitsAsUint64BE fragment table. -/
def Writer.WriteNBitsOfUint64 (w : Writer) (nBits val : Nat) :
    Except Err Unit × Writer :=
  if nBits = 0 then (.ok (), w)
  else if nBits ≤ 32 then w.WriteNBitsOfUint32 nBits (val % 4294967296)
  else if 64 < nBits then (.error .tooLarge, w)
  else
    let wb := w.currBitIndex + 1
    let b1Bits := wb
    let b2Bits := 8
    let b3Bits := 8
    let b4Bits := 8
    let c5 := nBits - 24 - wb
    let b5Bits := if 8 < c5 then 8 else c5
    let c6 := if 8 < c5 then c5 - 8 else 0
    let b6Bits := if 8 < c6 then 8 else c6
    let c7 := if 8 < c6 then c6 - 8 else 0
    let b7Bits := if 8 < c7 then 8 else c7
    let c8 := if 8 < c7 then c7 - 8 else 0
    let b8Bits := if 8 < c8 then 8 else c8
    let b9Bits := if 8 < c8 then c8 - 8 else 0
    let M := 18446744073709551616
    let s2 := b3Bits + b4Bits + b5Bits + b6Bits + b7Bits + b8Bits + b9Bits
    let b1 := ((val &&& ((((1 <<< b1Bits) - 1) <<< (b2Bits + s2)) % M)) >>> (b2Bits + s2)) % 256
    let b2 := (((val &&& ((((1 <<< b2Bits) - 1) <<< s2) % M)) >>> s2) <<< (8 - b2Bits)) % 256
    let s3 := b4Bits + b5Bits + b6Bits + b7Bits + b8Bits + b9Bits
    let b3 := (((val &&& ((((1 <<< b3Bits) - 1) <<< s3) % M)) >>> s3) <<< (8 - b3Bits)) % 256
    let s4 := b5Bits + b6Bits + b7Bits + b8Bits + b9Bits
    let b4 := (((val &&& ((((1 <<< b4Bits) - 1) <<< s4) % M)) >>> s4) <<< (8 - b4Bits)) % 256
    let s5 := b6Bits + b7Bits + b8Bits + b9Bits
    let b5 := (((val &&& ((((1 <<< b5Bits) - 1) <<< s5) % M)) >>> s5) <<< (8 - b5Bits)) % 256
    let s6 := b7Bits + b8Bits + b9Bits
    let b6 := (((val &&& ((((1 <<< b6Bits) - 1) <<< s6) % M)) >>> s6) <<< (8 - b6Bits)) % 256
    let s7 := b8Bits + b9Bits
    let b7 := (((val &&& ((((1 <<< b7Bits) - 1) <<< s7) % M)) >>> s7) <<< (8 - b7Bits)) % 256
    let b8 := (((val &&& ((((1 <<< b8Bits) - 1) <<< b9Bits) % M)) >>> b9Bits) <<< (8 - b8Bits)) % 256
    let b9 := ((val &&& (((1 <<< b9Bits) - 1) % M)) <<< (8 - b9Bits)) % 256
    let w1 := ({ w with currByte := w.currByte ||| b1 }).Flush
    let w2 := ({ w1 with currByte := b2 }).Flush
    let w3 := ({ w2 with currByte := b3 }).Flush
    let w4 := ({ w3 with currByte := b4 }).Flush
    let w5 :=
      if b5Bits = 8 then ({ w4 with currByte := b5 }).Flush
      else { w4 with currByte := b5 }
    if b6Bits = 0 then
      (.ok (), if b5Bits = 8 then w5 else { w5 with currBitIndex := 7 - b5Bits })
    else
      let w6 :=
        if b6Bits = 8 then ({ w5 with currByte := b6 }).Flush
        else { w5 with currByte := b6 }
      if b7Bits = 0 then
        (.ok (), if b6Bits = 8 then w6 else { w6 with currBitIndex := 7 - b6Bits })
      else
        let w7 :=
          if b7Bits = 8 then ({ w6 with currByte := b7 }).Flush
          else { w6 with currByte := b7 }
        if b8Bits = 0 then
          (.ok (), if b7Bits = 8 then w7 else { w7 with currBitIndex := 7 - b7Bits })
        else
          let w8 :=
            if b8Bits = 8 then ({ w7 with currByte := b8 }).Flush
            else { w7 with currByte := b8 }
          if b9Bits = 0 then
            (.ok (), if b8Bits = 8 then w8 else { w8 with currBitIndex := 7 - b8Bits })
          else
            (.ok (), { w8 with currByte := b9, currBitIndex := 7 - b9Bits })

/-- The bit of a byte sequence at stream position i: bit (7 - i mod 8) of
byte (i / 8), in the repository's MSB-first convention.  Specification
side definition used to state what the reader and writer compute. -/
def bitAt (bs : List Nat) (i : Nat) : Nat :=
  bs.getD (i / 8) 0 / 2 ^ (7 - i % 8) % 2

/-- The value of the n bits of bs starting at stream position s, packed
big-endian (first bit is most significant).  Specification side. -/
def bitsVal (bs : List Nat) (s : Nat) : Nat → Nat
  | 0 => 0
  | n + 1 => bitsVal bs s n * 2 + bitAt bs (s + n)

/-- The big-endian, left-aligned byte image of the low n bits of v: full
bytes from the most significant end, the final partial byte left-aligned
and zero padded.  Specification side definition. -/
def beBytes : Nat → Nat → List Nat
  | 0, _ => []
  | n + 1, v =>
    if h : n + 1 ≤ 8 then [(v % 2 ^ (n + 1)) * 2 ^ (8 - (n + 1))]
    else (v / 2 ^ (n + 1 - 8) % 256) :: beBytes (n + 1 - 8) (v % 2 ^ (n + 1 - 8))
termination_by n v => n
decreasing_by simp_wf; omega

/-- The reader cursor as an absolute bit position over the loaded buffer. -/
def bitPos (r : Reader) : Nat :=
  8 * r.currByteIndex + (7 - r.currBitIndex)

/-- The canonical reader state after consuming n more bits inside the
loaded buffer. -/
def advanced (r : Reader) (n : Nat) : Reader :=
  { r with currByteIndex := (bitPos r + n) / 8,
           currBitIndex := 7 - (bitPos r + n) % 8 }

/-- The cursor invariant of spec section 3: bit index in [0,7] and byte
index inside the valid buffer length, except exactly at a byte boundary
(where the next operation triggers a refill). -/
def inv (r : Reader) : Prop :=
  r.currBitIndex ≤ 7 ∧
    (r.currByteIndex < r.bufLen ∨ (r.currByteIndex = r.bufLen ∧ r.currBitIndex = 7))

instance (r : Reader) : Decidable (inv r) := by unfold inv; infer_instance

/-- A reader over fully buffered data positioned at a given cursor, the
way the repository's tests build readers (NewReader + fillBuf + setting
the indices); the trailing zero padding of the Go buffer is dropped,
which is observationally identical because out-of-range reads of the
model buffer default to 0. -/
def readerAt (data : List Nat) (byteIdx bitIdx : Nat) : Reader :=
  { src := [], buf := data, bufLen := data.length,
    currByteIndex := byteIdx, currBitIndex := bitIdx, opt := none }

/-- k consecutive ReadBit calls, collecting the bits (used to state the
exhaustion property). -/
def readBitsIter (r : Reader) : Nat → Except Err (List Nat) × Reader
  | 0 => (.ok [], r)
  | k + 1 =>
    match r.ReadBit with
    | (.error e, r1) => (.error e, r1)
    | (.ok b, r1) =>
      match readBitsIter r1 k with
      | (.error e, r2) => (.error e, r2)
      | (.ok bs, r2) => (.ok (b :: bs), r2)

/-! ### Arithmetic infrastructure -/

theorem getD_lt_256 (bs : List Nat) (i : Nat) (hb : ∀ b ∈ bs, b < 256) :
    bs.getD i 0 < 256 := by
  induction bs generalizing i with
  | nil => simp
  | cons x t ih =>
    cases i with
    | zero => exact hb x (by simp)
    | succ j => exact ih j fun b h => hb b (by simp [h])

theorem mul_pow_lor_eq_add (a b k : Nat) (hb : b < 2 ^ k) :
    a * 2 ^ k ||| b = a * 2 ^ k + b := by
  rw [Nat.mul_comm a (2 ^ k)]
  exact (Nat.mul_add_lt_is_or hb a).symm

theorem and_shl_mask_shr (v j k : Nat) :
    (v &&& ((2 ^ j - 1) <<< k)) >>> k = v / 2 ^ k % 2 ^ j := by
  have h : v / 2 ^ k = v >>> k := (Nat.shiftRight_eq_div_pow v k).symm
  rw [h, ← Nat.and_pow_two_sub_one_eq_mod]
  apply Nat.eq_of_testBit_eq
  intro i
  simp [Nat.testBit_shiftRight, Nat.testBit_and, Nat.testBit_shiftLeft,
    Nat.add_sub_cancel_left, Bool.and_comm]

theorem mod_two_pow_succ (y n : Nat) : y % 2 ^ (n + 1) = y / 2 % 2 ^ n * 2 + y % 2 := by
  have h : (2 : Nat) ^ (n + 1) = 2 * 2 ^ n := by rw [pow_succ, Nat.mul_comm]
  rw [h, Nat.mod_mul]
  omega

theorem bitAt_lt (bs : List Nat) (i : Nat) : bitAt bs i < 2 :=
  Nat.mod_lt _ (by norm_num)

theorem bitsVal_lt (bs : List Nat) (s n : Nat) : bitsVal bs s n < 2 ^ n := by
  induction n with
  | zero => simp [bitsVal]
  | succ n ih =>
    have h := bitAt_lt bs (s + n)
    rw [bitsVal, pow_succ]
    omega

theorem bitsVal_add (bs : List Nat) (s m k : Nat) :
    bitsVal bs s (m + k) = bitsVal bs s m * 2 ^ k + bitsVal bs (s + m) k := by
  induction k with
  | zero => simp [bitsVal]
  | succ k ih =>
    have h : m + (k + 1) = (m + k) + 1 := rfl
    rw [h, bitsVal, ih, bitsVal, pow_succ, Nat.add_assoc s m k]
    ring

theorem bitsVal_single (bs : List Nat) (s n : Nat) (h : s % 8 + n ≤ 8) :
    bitsVal bs s n = bs.getD (s / 8) 0 / 2 ^ (8 - s % 8 - n) % 2 ^ n := by
  induction n with
  | zero => simp [bitsVal, Nat.mod_one]
  | succ n ih =>
    rw [bitsVal, ih (by omega)]
    unfold bitAt
    have h1 : (s + n) / 8 = s / 8 := by omega
    have h2 : (s + n) % 8 = s % 8 + n := by omega
    rw [h1, h2]
    have e1 : 8 - s % 8 - n = (8 - s % 8 - (n + 1)) + 1 := by omega
    have e2 : 7 - (s % 8 + n) = 8 - s % 8 - (n + 1) := by omega
    rw [e1, e2, mod_two_pow_succ]
    have e3 : bs.getD (s / 8) 0 / 2 ^ (8 - s % 8 - (n + 1) + 1) =
        bs.getD (s / 8) 0 / 2 ^ (8 - s % 8 - (n + 1)) / 2 := by
      rw [pow_succ, ← Nat.div_div_eq_div_mul]
    rw [e3]

theorem bitsVal_append (bs cs : List Nat) (s n : Nat) (h : s + n ≤ 8 * bs.length) :
    bitsVal (bs ++ cs) s n = bitsVal bs s n := by
  induction n with
  | zero => rfl
  | succ n ih =>
    rw [bitsVal, bitsVal, ih (by omega)]
    congr 1
    unfold bitAt
    have hlt : (s + n) / 8 < bs.length := by omega
    rw [List.getD_append _ _ _ _ hlt]

theorem bitsVal_cons_shift (x : Nat) (bs : List Nat) (s k : Nat) :
    bitsVal (x :: bs) (8 + s) k = bitsVal bs s k := by
  induction k with
  | zero => rfl
  | succ k ih =>
    rw [bitsVal, bitsVal, ih]
    congr 1
    unfold bitAt
    have h1 : (8 + s + k) / 8 = (s + k) / 8 + 1 := by omega
    have h2 : (8 + s + k) % 8 = (s + k) % 8 := by omega
    rw [h1, h2, List.getD_cons_succ]

/-! ### Reader structure lemmas -/

theorem advanced_buf (r : Reader) (n : Nat) : (advanced r n).buf = r.buf := rfl

theorem advanced_bufLen (r : Reader) (n : Nat) : (advanced r n).bufLen = r.bufLen := rfl

theorem advanced_bit_le (r : Reader) (n : Nat) : (advanced r n).currBitIndex ≤ 7 := by
  simp only [advanced]
  omega

theorem bitPos_advanced (r : Reader) (n : Nat) : bitPos (advanced r n) = bitPos r + n := by
  simp only [advanced, bitPos]
  omega

theorem advanced_advanced (r : Reader) (m k : Nat) :
    advanced (advanced r m) k = advanced r (m + k) := by
  cases r
  simp only [advanced, bitPos, Reader.mk.injEq, and_true, true_and]
  constructor <;> omega

theorem forward_eq_advanced (r : Reader) (n : Nat) (h7 : r.currBitIndex ≤ 7)
    (h2 : n ≤ r.currBitIndex + 1) : r.forwardIndecies n = advanced r n := by
  cases r with
  | mk src buf bufLen ci bi opt =>
    dsimp only at h7 h2 ⊢
    simp only [Reader.forwardIndecies, advanced, bitPos]
    by_cases h : n ≤ bi
    · rw [if_pos h]
      simp only [Reader.mk.injEq, and_true, true_and]
      refine ⟨by omega, by omega⟩
    · rw [if_neg h]
      simp only [Reader.mk.injEq, and_true, true_and]
      have hn : n = bi + 1 := by omega
      refine ⟨by omega, by omega⟩

theorem fill_noop (r : Reader) (h : r.currByteIndex < r.bufLen) :
    r.fillBufIfNeeded = (.ok (), r) := by
  unfold Reader.fillBufIfNeeded Reader.isBufEmpty
  rw [if_neg]
  simp only [decide_eq_true_eq]
  omega

/-! ### Reader master lemmas: each read returns the big-endian value of the
bits at the cursor and advances the cursor, as long as the requested bits
are inside the loaded buffer. -/

theorem mustRead_spec (r : Reader) (n : Nat) (h1 : 1 ≤ n) (h2 : n ≤ r.currBitIndex + 1)
    (h7 : r.currBitIndex ≤ 7) (hb : ∀ b ∈ r.buf, b < 256) :
    r.mustReadNBitsInCurrentByte n =
      (.ok (bitsVal r.buf (bitPos r) n), advanced r n) := by
  unfold Reader.mustReadNBitsInCurrentByte
  rw [if_neg (by omega), if_neg (by omega)]
  dsimp only
  rw [forward_eq_advanced r n h7 h2]
  simp only [Prod.mk.injEq, Except.ok.injEq, and_true]
  have hpow : (2 : Nat) ^ (r.currBitIndex + 1) ≤ 2 ^ 8 :=
    Nat.pow_le_pow_right (by norm_num) (by omega)
  have hmask : ((1 <<< (r.currBitIndex + 1)) - 1) % 256 = 2 ^ (r.currBitIndex + 1) - 1 := by
    rw [Nat.shiftLeft_eq, one_mul]
    exact Nat.mod_eq_of_lt (by norm_num at hpow ⊢; omega)
  rw [hmask, Nat.and_pow_two_sub_one_eq_mod, Nat.shiftRight_eq_div_pow]
  have hp1 : bitPos r % 8 = 7 - r.currBitIndex := by
    simp only [bitPos]; omega
  have hp2 : bitPos r / 8 = r.currByteIndex := by
    simp only [bitPos]; omega
  rw [bitsVal_single r.buf (bitPos r) n (by omega), hp1, hp2]
  have e1 : 8 - (7 - r.currBitIndex) - n = r.currBitIndex + 1 - n := by omega
  have e2 : r.currBitIndex - (n - 1) = r.currBitIndex + 1 - n := by omega
  have e3 : (2 : Nat) ^ (r.currBitIndex + 1) = 2 ^ (r.currBitIndex + 1 - n) * 2 ^ n := by
    rw [← pow_add]
    congr 1
    omega
  rw [e1, e2, e3, Nat.mod_mul_right_div_self]

theorem read8_spec (n : Nat) (r r1 : Reader) (h1 : 1 ≤ n) (h8 : n ≤ 8)
    (hfill : r.fillBufIfNeeded = (.ok (), r1))
    (h7 : r1.currBitIndex ≤ 7) (hb : ∀ b ∈ r1.buf, b < 256)
    (hav : bitPos r1 + n ≤ 8 * r1.bufLen) :
    r.ReadNBitsAsUint8 n = (.ok (bitsVal r1.buf (bitPos r1) n), advanced r1 n) := by
  induction n using Nat.strong_induction_on generalizing r r1 with
  | _ n ih =>
    unfold Reader.ReadNBitsAsUint8
    rw [if_neg (by omega), if_neg (by omega), hfill]
    dsimp only
    by_cases hle : n ≤ r1.currBitIndex + 1
    · rw [dif_pos hle]
      exact mustRead_spec r1 n h1 hle h7 hb
    · rw [dif_neg hle]
      have hrb1 : 1 ≤ r1.currBitIndex + 1 := by omega
      rw [mustRead_spec r1 (r1.currBitIndex + 1) hrb1 (le_refl _) h7 hb]
      dsimp only
      set rb := r1.currBitIndex + 1 with hrb
      have hciA : (advanced r1 rb).currByteIndex < (advanced r1 rb).bufLen := by
        simp only [advanced, advanced_bufLen]
        omega
      have hfillA : (advanced r1 rb).fillBufIfNeeded = (.ok (), advanced r1 rb) :=
        fill_noop _ hciA
      have havA : bitPos (advanced r1 rb) + (n - rb) ≤ 8 * (advanced r1 rb).bufLen := by
        rw [bitPos_advanced, advanced_bufLen]
        omega
      rw [ih (n - rb) (by omega) (advanced r1 rb) (advanced r1 rb) (by omega) (by omega)
        hfillA (advanced_bit_le r1 rb) (by rw [advanced_buf]; exact hb) havA]
      dsimp only
      rw [advanced_buf, bitPos_advanced, advanced_advanced]
      have hn : rb + (n - rb) = n := by omega
      rw [hn]
      simp only [Prod.mk.injEq, Except.ok.injEq, and_true]
      have hb1 : bitsVal r1.buf (bitPos r1) rb < 2 ^ rb := bitsVal_lt _ _ _
      have hb2 : bitsVal r1.buf (bitPos r1 + rb) (n - rb) < 2 ^ (n - rb) :=
        bitsVal_lt _ _ _
      have hsh : bitsVal r1.buf (bitPos r1) rb <<< (n - rb) =
          bitsVal r1.buf (bitPos r1) rb * 2 ^ (n - rb) := Nat.shiftLeft_eq _ _
      have hlt : bitsVal r1.buf (bitPos r1) rb * 2 ^ (n - rb) < 256 := by
        calc bitsVal r1.buf (bitPos r1) rb * 2 ^ (n - rb)
            < 2 ^ rb * 2 ^ (n - rb) :=
              mul_lt_mul_of_pos_right hb1 (Nat.pos_pow_of_pos _ (by norm_num))
          _ = 2 ^ n := by rw [← pow_add, hn]
          _ ≤ 2 ^ 8 := Nat.pow_le_pow_right (by norm_num) h8
      have hsplit := bitsVal_add r1.buf (bitPos r1) rb (n - rb)
      rw [hn] at hsplit
      rw [hsh, Nat.mod_eq_of_lt hlt, mul_pow_lor_eq_add _ _ _ hb2, ← hsplit]

theorem read8_zero (r : Reader) : r.ReadNBitsAsUint8 0 = (.ok 0, r) := by
  unfold Reader.ReadNBitsAsUint8
  simp

theorem advanced_zero (r : Reader) (h7 : r.currBitIndex ≤ 7) : advanced r 0 = r := by
  cases r with
  | mk src buf bufLen ci bi opt =>
    dsimp only at h7
    simp only [advanced, bitPos, Reader.mk.injEq, and_true, true_and]
    refine ⟨by omega, by omega⟩

theorem shl_mod_eq (x s e M : Nat) (hx : x < 2 ^ e) (hse : 2 ^ (e + s) ≤ M) :
    (x <<< s) % M = x * 2 ^ s := by
  rw [Nat.shiftLeft_eq]
  apply Nat.mod_eq_of_lt
  calc x * 2 ^ s < 2 ^ e * 2 ^ s :=
        mul_lt_mul_of_pos_right hx (Nat.pos_pow_of_pos _ (by norm_num))
    _ = 2 ^ (e + s) := (pow_add 2 e s).symm
    _ ≤ M := hse

theorem or_step (bs : List Nat) (p L l s : Nat) :
    (bitsVal bs p L * 2 ^ (l + s)) ||| (bitsVal bs (p + L) l * 2 ^ s)
      = bitsVal bs p (L + l) * 2 ^ s := by
  have h1 : bitsVal bs (p + L) l * 2 ^ s < 2 ^ (l + s) := by
    calc bitsVal bs (p + L) l * 2 ^ s < 2 ^ l * 2 ^ s :=
          mul_lt_mul_of_pos_right (bitsVal_lt _ _ _) (Nat.pos_pow_of_pos _ (by norm_num))
      _ = 2 ^ (l + s) := (pow_add 2 l s).symm
  rw [mul_pow_lor_eq_add _ _ _ h1, bitsVal_add bs p L l]
  ring

theorem or_last (bs : List Nat) (p L l : Nat) :
    (bitsVal bs p L * 2 ^ l) ||| bitsVal bs (p + L) l = bitsVal bs p (L + l) := by
  have h := or_step bs p L l 0
  simpa using h

theorem read16_spec (n : Nat) (r r1 : Reader) (h1 : 1 ≤ n) (h16 : n ≤ 16)
    (hfill : r.fillBufIfNeeded = (.ok (), r1))
    (h7 : r1.currBitIndex ≤ 7) (hb : ∀ b ∈ r1.buf, b < 256)
    (hav : bitPos r1 + n ≤ 8 * r1.bufLen) :
    r.ReadNBitsAsUint16BE n = (.ok (bitsVal r1.buf (bitPos r1) n), advanced r1 n) := by
  unfold Reader.ReadNBitsAsUint16BE
  rw [if_neg (by omega)]
  by_cases hn8 : n ≤ 8
  · rw [if_pos hn8]
    exact read8_spec n r r1 h1 hn8 hfill h7 hb hav
  · rw [if_neg hn8, if_neg (by omega), hfill]
    dsimp only
    rw [mustRead_spec r1 (r1.currBitIndex + 1) (by omega) (le_refl _) h7 hb]
    dsimp only
    set rb := r1.currBitIndex + 1 with hrbdef
    set p := bitPos r1 with hpdef
    have hfillA : ∀ k, k < n → (advanced r1 k).fillBufIfNeeded = (.ok (), advanced r1 k) := by
      intro k hk
      apply fill_noop
      simp only [advanced, advanced_bufLen]
      omega
    have hbA : ∀ k, ∀ b ∈ (advanced r1 k).buf, b < 256 := fun k => by
      rw [advanced_buf]; exact hb
    have havA : ∀ k l, k + l ≤ n → bitPos (advanced r1 k) + l ≤ 8 * (advanced r1 k).bufLen := by
      intro k l hkl
      rw [bitPos_advanced, advanced_bufLen]
      omega
    by_cases hc : 8 < n - rb
    · simp only [if_pos hc]
      have hrbn : rb < n := by omega
      rw [read8_spec 8 (advanced r1 rb) (advanced r1 rb) (by omega) (le_refl _)
        (hfillA rb (by omega)) (advanced_bit_le _ _) (hbA rb) (havA rb 8 (by omega))]
      dsimp only
      rw [advanced_advanced]
      rw [read8_spec (n - rb - 8) (advanced r1 (rb + 8)) (advanced r1 (rb + 8)) (by omega)
        (by omega) (hfillA (rb + 8) (by omega)) (advanced_bit_le _ _) (hbA (rb + 8))
        (havA (rb + 8) (n - rb - 8) (by omega))]
      dsimp only
      rw [advanced_advanced, advanced_buf, advanced_buf, bitPos_advanced, bitPos_advanced]
      have hend : rb + 8 + (n - rb - 8) = n := by omega
      rw [hend]
      simp only [Prod.mk.injEq, Except.ok.injEq, and_true]
      rw [shl_mod_eq _ _ rb 65536 (bitsVal_lt _ _ _)
          (by have he : rb + (8 + (n - rb - 8)) = n := by omega
              rw [he]
              calc (2:Nat) ^ n ≤ 2 ^ 16 := Nat.pow_le_pow_right (by norm_num) h16
                _ = 65536 := by norm_num),
        shl_mod_eq _ _ 8 65536 (bitsVal_lt _ _ _)
          (by calc (2:Nat) ^ (8 + (n - rb - 8)) ≤ 2 ^ 16 :=
                Nat.pow_le_pow_right (by norm_num) (by omega)
              _ = 65536 := by norm_num),
        or_step, or_last, hend]
    · simp only [if_neg hc]
      have hn1 : 1 ≤ n - rb := by omega
      rw [read8_spec (n - rb) (advanced r1 rb) (advanced r1 rb) hn1 (by omega)
        (hfillA rb (by omega)) (advanced_bit_le _ _) (hbA rb) (havA rb (n - rb) (by omega))]
      dsimp only
      rw [read8_zero, advanced_advanced, advanced_buf, bitPos_advanced]
      have hend : rb + (n - rb) = n := by omega
      rw [hend]
      simp only [Prod.mk.injEq, Except.ok.injEq, and_true, Nat.add_zero,
        Nat.shiftLeft_zero, Nat.or_zero]
      rw [shl_mod_eq _ _ rb 65536 (bitsVal_lt _ _ _)
          (by calc (2:Nat) ^ (rb + (n - rb)) = 2 ^ n := by congr 1
              _ ≤ 2 ^ 16 := Nat.pow_le_pow_right (by norm_num) h16
              _ = 65536 := by norm_num)]
      have hm2 : bitsVal r1.buf (p + rb) (n - rb) % 65536 = bitsVal r1.buf (p + rb) (n - rb) := by
        apply Nat.mod_eq_of_lt
        calc bitsVal r1.buf (p + rb) (n - rb) < 2 ^ (n - rb) := bitsVal_lt _ _ _
          _ ≤ 2 ^ 16 := Nat.pow_le_pow_right (by norm_num) (by omega)
          _ = 65536 := by norm_num
      rw [hm2, or_last, hend]

theorem read32_spec (n : Nat) (r r1 : Reader) (h1 : 1 ≤ n) (h32 : n ≤ 32)
    (hfill : r.fillBufIfNeeded = (.ok (), r1))
    (h7 : r1.currBitIndex ≤ 7) (hb : ∀ b ∈ r1.buf, b < 256)
    (hav : bitPos r1 + n ≤ 8 * r1.bufLen) :
    r.ReadNBitsAsUint32BE n = (.ok (bitsVal r1.buf (bitPos r1) n), advanced r1 n) := by
  unfold Reader.ReadNBitsAsUint32BE
  rw [if_neg (by omega)]
  by_cases hn16 : n ≤ 16
  · rw [if_pos hn16]
    exact read16_spec n r r1 h1 hn16 hfill h7 hb hav
  · rw [if_neg hn16, if_neg (by omega), hfill]
    dsimp only
    rw [mustRead_spec r1 (r1.currBitIndex + 1) (by omega) (le_refl _) h7 hb]
    dsimp only
    set rb := r1.currBitIndex + 1 with hrbdef
    set p := bitPos r1 with hpdef
    have hfillA : ∀ k, k < n → (advanced r1 k).fillBufIfNeeded = (.ok (), advanced r1 k) := by
      intro k hk
      apply fill_noop
      simp only [advanced, advanced_bufLen]
      omega
    have hbA : ∀ k, ∀ b ∈ (advanced r1 k).buf, b < 256 := fun k => by
      rw [advanced_buf]; exact hb
    have havA : ∀ k l, k + l ≤ n → bitPos (advanced r1 k) + l ≤ 8 * (advanced r1 k).bufLen := by
      intro k l hkl
      rw [bitPos_advanced, advanced_bufLen]
      omega
    have hM16 : ∀ e, e ≤ 32 → (2:Nat) ^ e ≤ 4294967296 := by
      intro e he
      calc (2:Nat) ^ e ≤ 2 ^ 32 := Nat.pow_le_pow_right (by norm_num) he
        _ = 4294967296 := by norm_num
    have hrb8 : rb ≤ 8 := by omega
    rw [read8_spec 8 (advanced r1 rb) (advanced r1 rb) (by omega) (le_refl _)
      (hfillA rb (by omega)) (advanced_bit_le _ _) (hbA rb) (havA rb 8 (by omega))]
    dsimp only
    rw [advanced_advanced]
    by_cases hc3 : 8 < n - rb - 8
    · by_cases hc4 : 8 < n - rb - 8 - 8
      · -- three full middle bytes and a tail of n - rb - 24 bits
        simp only [if_pos hc3, if_pos hc4]
        rw [read8_spec 8 (advanced r1 (rb + 8)) (advanced r1 (rb + 8)) (by omega) (le_refl _)
          (hfillA (rb + 8) (by omega)) (advanced_bit_le _ _) (hbA _) (havA (rb + 8) 8 (by omega))]
        dsimp only
        rw [advanced_advanced]
        rw [read8_spec 8 (advanced r1 (rb + 8 + 8)) (advanced r1 (rb + 8 + 8)) (by omega)
          (le_refl _) (hfillA (rb + 8 + 8) (by omega)) (advanced_bit_le _ _) (hbA _)
          (havA (rb + 8 + 8) 8 (by omega))]
        dsimp only
        rw [advanced_advanced]
        rw [read8_spec (n - rb - 8 - 8 - 8) (advanced r1 (rb + 8 + 8 + 8))
          (advanced r1 (rb + 8 + 8 + 8)) (by omega) (by omega)
          (hfillA (rb + 8 + 8 + 8) (by omega)) (advanced_bit_le _ _) (hbA _)
          (havA (rb + 8 + 8 + 8) (n - rb - 8 - 8 - 8) (by omega))]
        dsimp only
        rw [advanced_advanced, advanced_buf, advanced_buf, advanced_buf, advanced_buf,
          bitPos_advanced, bitPos_advanced, bitPos_advanced, bitPos_advanced]
        have hend : rb + 8 + 8 + 8 + (n - rb - 8 - 8 - 8) = n := by omega
        rw [hend]
        simp only [Prod.mk.injEq, Except.ok.injEq, and_true, Nat.add_assoc]
        rw [shl_mod_eq _ _ rb 4294967296 (bitsVal_lt _ _ _)
            (by have he : rb + (8 + (8 + (8 + (n - rb - 8 - 8 - 8)))) = n := by omega
                rw [he]; exact hM16 n (by omega)),
          shl_mod_eq _ _ 8 4294967296 (bitsVal_lt _ _ _) (hM16 _ (by omega)),
          shl_mod_eq _ _ 8 4294967296 (bitsVal_lt _ _ _) (hM16 _ (by omega)),
          shl_mod_eq _ _ 8 4294967296 (bitsVal_lt _ _ _) (hM16 _ (by omega)),
          or_step, or_step, or_step, or_last, hend]
      · -- two full middle bytes and a tail of n - rb - 16 bits
        simp only [if_pos hc3, if_neg hc4, if_neg (show ¬(8:Nat) < 0 by norm_num)]
        rw [read8_spec 8 (advanced r1 (rb + 8)) (advanced r1 (rb + 8)) (by omega) (le_refl _)
          (hfillA (rb + 8) (by omega)) (advanced_bit_le _ _) (hbA _) (havA (rb + 8) 8 (by omega))]
        dsimp only
        rw [advanced_advanced]
        rw [read8_spec (n - rb - 8 - 8) (advanced r1 (rb + 8 + 8)) (advanced r1 (rb + 8 + 8))
          (by omega) (by omega) (hfillA (rb + 8 + 8) (by omega)) (advanced_bit_le _ _) (hbA _)
          (havA (rb + 8 + 8) (n - rb - 8 - 8) (by omega))]
        dsimp only
        rw [advanced_advanced, read8_zero, advanced_buf, advanced_buf, advanced_buf,
          bitPos_advanced, bitPos_advanced, bitPos_advanced]
        have hend : rb + 8 + 8 + (n - rb - 8 - 8) = n := by omega
        rw [hend]
        simp only [Prod.mk.injEq, Except.ok.injEq, and_true, Nat.add_zero,
          Nat.shiftLeft_zero, Nat.or_zero, Nat.zero_shiftLeft, Nat.zero_mod, Nat.add_assoc]
        rw [shl_mod_eq _ _ rb 4294967296 (bitsVal_lt _ _ _)
            (by have he : rb + (8 + (8 + (n - rb - 8 - 8))) = n := by omega
                rw [he]; exact hM16 n (by omega)),
          shl_mod_eq _ _ 8 4294967296 (bitsVal_lt _ _ _) (hM16 _ (by omega)),
          shl_mod_eq _ _ 8 4294967296 (bitsVal_lt _ _ _) (hM16 _ (by omega))]
        rw [Nat.mod_eq_of_lt (lt_of_lt_of_le (bitsVal_lt _ _ _) (hM16 _ (by omega)))]
        rw [or_step, or_step, or_last, hend]
    · -- one middle segment of n - rb - 8 bits, no further bytes
      simp only [if_neg hc3, if_neg (show ¬(8:Nat) < 0 by norm_num)]
      rw [read8_spec (n - rb - 8) (advanced r1 (rb + 8)) (advanced r1 (rb + 8)) (by omega)
        (by omega) (hfillA (rb + 8) (by omega)) (advanced_bit_le _ _) (hbA _)
        (havA (rb + 8) (n - rb - 8) (by omega))]
      dsimp only
      rw [advanced_advanced, read8_zero]
      dsimp only
      rw [read8_zero]
      dsimp only
      rw [advanced_buf, advanced_buf, bitPos_advanced, bitPos_advanced]
      have hend : rb + 8 + (n - rb - 8) = n := by omega
      rw [hend]
      simp only [Prod.mk.injEq, Except.ok.injEq, and_true, Nat.add_zero,
        Nat.shiftLeft_zero, Nat.or_zero, Nat.zero_shiftLeft, Nat.zero_mod, Nat.add_assoc]
      rw [shl_mod_eq _ _ rb 4294967296 (bitsVal_lt _ _ _)
          (by have he : rb + (8 + (n - rb - 8)) = n := by omega
              rw [he]; exact hM16 n (by omega)),
        shl_mod_eq _ _ 8 4294967296 (bitsVal_lt _ _ _) (hM16 _ (by omega))]
      rw [Nat.mod_eq_of_lt (lt_of_lt_of_le (bitsVal_lt _ _ _) (hM16 _ (by omega)))]
      rw [or_step, or_last, hend]

theorem read64_spec (n : Nat) (r r1 : Reader) (h1 : 1 ≤ n) (h64 : n ≤ 64)
    (hfill : r.fillBufIfNeeded = (.ok (), r1))
    (h7 : r1.currBitIndex ≤ 7) (hb : ∀ b ∈ r1.buf, b < 256)
    (hav : bitPos r1 + n ≤ 8 * r1.bufLen) :
    r.ReadNBitsAsUint64BE n = (.ok (bitsVal r1.buf (bitPos r1) n), advanced r1 n) := by
  unfold Reader.ReadNBitsAsUint64BE
  rw [if_neg (by omega)]
  by_cases hn32 : n ≤ 32
  · rw [if_pos hn32]
    exact read32_spec n r r1 h1 hn32 hfill h7 hb hav
  · rw [if_neg hn32, if_neg (by omega), hfill]
    dsimp only
    rw [mustRead_spec r1 (r1.currBitIndex + 1) (by omega) (le_refl _) h7 hb]
    dsimp only
    set rb := r1.currBitIndex + 1 with hrbdef
    set p := bitPos r1 with hpdef
    have hfillA : ∀ k, k < n → (advanced r1 k).fillBufIfNeeded = (.ok (), advanced r1 k) := by
      intro k hk
      apply fill_noop
      simp only [advanced, advanced_bufLen]
      omega
    have hbA : ∀ k, ∀ b ∈ (advanced r1 k).buf, b < 256 := fun k => by
      rw [advanced_buf]; exact hb
    have havA : ∀ k l, k + l ≤ n → bitPos (advanced r1 k) + l ≤ 8 * (advanced r1 k).bufLen := by
      intro k l hkl
      rw [bitPos_advanced, advanced_bufLen]
      omega
    have hM64 : ∀ e, e ≤ 64 → (2:Nat) ^ e ≤ 18446744073709551616 := by
      intro e he
      calc (2:Nat) ^ e ≤ 2 ^ 64 := Nat.pow_le_pow_right (by norm_num) he
        _ = 18446744073709551616 := by norm_num
    have hrb8 : rb ≤ 8 := by omega
    rw [read8_spec 8 (advanced r1 rb) (advanced r1 rb) (by omega) (le_refl _)
      (hfillA rb (by omega)) (advanced_bit_le _ _) (hbA rb) (havA rb 8 (by omega))]
    dsimp only
    rw [advanced_advanced]
    rw [read8_spec 8 (advanced r1 (rb + 8)) (advanced r1 (rb + 8)) (by omega) (le_refl _)
      (hfillA (rb + 8) (by omega)) (advanced_bit_le _ _) (hbA _) (havA (rb + 8) 8 (by omega))]
    dsimp only
    rw [advanced_advanced]
    rw [read8_spec 8 (advanced r1 (rb + 8 + 8)) (advanced r1 (rb + 8 + 8)) (by omega)
      (le_refl _) (hfillA (rb + 8 + 8) (by omega)) (advanced_bit_le _ _) (hbA _)
      (havA (rb + 8 + 8) 8 (by omega))]
    dsimp only
    rw [advanced_advanced]
    by_cases hc5 : 8 < n - rb - 24
    · by_cases hc6 : 8 < n - rb - 24 - 8
      · by_cases hc7 : 8 < n - rb - 24 - 8 - 8
        · by_cases hc8 : 8 < n - rb - 24 - 8 - 8 - 8
          · -- nine fragments: tail of n - rb - 56 bits in the ninth byte
            simp only [if_pos hc5, if_pos hc6, if_pos hc7, if_pos hc8]
            rw [read8_spec 8 (advanced r1 (rb + 8 + 8 + 8)) (advanced r1 (rb + 8 + 8 + 8))
              (by omega) (le_refl _) (hfillA _ (by omega)) (advanced_bit_le _ _) (hbA _)
              (havA (rb + 8 + 8 + 8) 8 (by omega))]
            dsimp only
            rw [advanced_advanced]
            rw [read8_spec 8 (advanced r1 (rb + 8 + 8 + 8 + 8))
              (advanced r1 (rb + 8 + 8 + 8 + 8)) (by omega) (le_refl _)
              (hfillA _ (by omega)) (advanced_bit_le _ _) (hbA _)
              (havA (rb + 8 + 8 + 8 + 8) 8 (by omega))]
            dsimp only
            rw [advanced_advanced]
            rw [read8_spec 8 (advanced r1 (rb + 8 + 8 + 8 + 8 + 8))
              (advanced r1 (rb + 8 + 8 + 8 + 8 + 8)) (by omega) (le_refl _)
              (hfillA _ (by omega)) (advanced_bit_le _ _) (hbA _)
              (havA (rb + 8 + 8 + 8 + 8 + 8) 8 (by omega))]
            dsimp only
            rw [advanced_advanced]
            rw [read8_spec 8 (advanced r1 (rb + 8 + 8 + 8 + 8 + 8 + 8))
              (advanced r1 (rb + 8 + 8 + 8 + 8 + 8 + 8)) (by omega) (le_refl _)
              (hfillA _ (by omega)) (advanced_bit_le _ _) (hbA _)
              (havA (rb + 8 + 8 + 8 + 8 + 8 + 8) 8 (by omega))]
            dsimp only
            rw [advanced_advanced]
            rw [read8_spec (n - rb - 24 - 8 - 8 - 8 - 8)
              (advanced r1 (rb + 8 + 8 + 8 + 8 + 8 + 8 + 8))
              (advanced r1 (rb + 8 + 8 + 8 + 8 + 8 + 8 + 8)) (by omega) (by omega)
              (hfillA _ (by omega)) (advanced_bit_le _ _) (hbA _)
              (havA (rb + 8 + 8 + 8 + 8 + 8 + 8 + 8) (n - rb - 24 - 8 - 8 - 8 - 8) (by omega))]
            dsimp only
            rw [advanced_advanced]
            simp only [advanced_buf, bitPos_advanced]
            have hend : rb + 8 + 8 + 8 + 8 + 8 + 8 + 8 + (n - rb - 24 - 8 - 8 - 8 - 8) = n := by
              omega
            rw [hend]
            simp only [Prod.mk.injEq, Except.ok.injEq, and_true, Nat.add_assoc]
            rw [shl_mod_eq _ _ rb 18446744073709551616 (bitsVal_lt _ _ _)
                (by have he : rb + (8 + (8 + (8 + (8 + (8 + (8 + (8 +
                      (n - rb - 24 - 8 - 8 - 8 - 8)))))))) = n := by omega
                    rw [he]; exact hM64 n (by omega)),
              shl_mod_eq _ _ 8 18446744073709551616 (bitsVal_lt _ _ _) (hM64 _ (by omega)),
              shl_mod_eq _ _ 8 18446744073709551616 (bitsVal_lt _ _ _) (hM64 _ (by omega)),
              shl_mod_eq _ _ 8 18446744073709551616 (bitsVal_lt _ _ _) (hM64 _ (by omega)),
              shl_mod_eq _ _ 8 18446744073709551616 (bitsVal_lt _ _ _) (hM64 _ (by omega)),
              shl_mod_eq _ _ 8 18446744073709551616 (bitsVal_lt _ _ _) (hM64 _ (by omega)),
              shl_mod_eq _ _ 8 18446744073709551616 (bitsVal_lt _ _ _) (hM64 _ (by omega)),
              shl_mod_eq _ _ 8 18446744073709551616 (bitsVal_lt _ _ _) (hM64 _ (by omega)),
              or_step, or_step, or_step, or_step, or_step, or_step, or_step, or_last, hend]
          · -- eight fragments: tail of n - rb - 48 bits in the eighth byte
            simp only [if_pos hc5, if_pos hc6, if_pos hc7, if_neg hc8,
              if_neg (show ¬(8:Nat) < 0 by norm_num)]
            rw [read8_spec 8 (advanced r1 (rb + 8 + 8 + 8)) (advanced r1 (rb + 8 + 8 + 8))
              (by omega) (le_refl _) (hfillA _ (by omega)) (advanced_bit_le _ _) (hbA _)
              (havA (rb + 8 + 8 + 8) 8 (by omega))]
            dsimp only
            rw [advanced_advanced]
            rw [read8_spec 8 (advanced r1 (rb + 8 + 8 + 8 + 8))
              (advanced r1 (rb + 8 + 8 + 8 + 8)) (by omega) (le_refl _)
              (hfillA _ (by omega)) (advanced_bit_le _ _) (hbA _)
              (havA (rb + 8 + 8 + 8 + 8) 8 (by omega))]
            dsimp only
            rw [advanced_advanced]
            rw [read8_spec 8 (advanced r1 (rb + 8 + 8 + 8 + 8 + 8))
              (advanced r1 (rb + 8 + 8 + 8 + 8 + 8)) (by omega) (le_refl _)
              (hfillA _ (by omega)) (advanced_bit_le _ _) (hbA _)
              (havA (rb + 8 + 8 + 8 + 8 + 8) 8 (by omega))]
            dsimp only
            rw [advanced_advanced]
            rw [read8_spec (n - rb - 24 - 8 - 8 - 8)
              (advanced r1 (rb + 8 + 8 + 8 + 8 + 8 + 8))
              (advanced r1 (rb + 8 + 8 + 8 + 8 + 8 + 8)) (by omega) (by omega)
              (hfillA _ (by omega)) (advanced_bit_le _ _) (hbA _)
              (havA (rb + 8 + 8 + 8 + 8 + 8 + 8) (n - rb - 24 - 8 - 8 - 8) (by omega))]
            dsimp only
            rw [advanced_advanced, read8_zero]
            dsimp only
            simp only [advanced_buf, bitPos_advanced]
            have hend : rb + 8 + 8 + 8 + 8 + 8 + 8 + (n - rb - 24 - 8 - 8 - 8) = n := by omega
            rw [hend]
            simp only [Prod.mk.injEq, Except.ok.injEq, and_true, Nat.add_zero,
              Nat.shiftLeft_zero, Nat.or_zero, Nat.zero_shiftLeft, Nat.zero_mod, Nat.add_assoc]
            rw [shl_mod_eq _ _ rb 18446744073709551616 (bitsVal_lt _ _ _)
                (by have he : rb + (8 + (8 + (8 + (8 + (8 + (8 +
                      (n - rb - 24 - 8 - 8 - 8))))))) = n := by omega
                    rw [he]; exact hM64 n (by omega)),
              shl_mod_eq _ _ 8 18446744073709551616 (bitsVal_lt _ _ _) (hM64 _ (by omega)),
              shl_mod_eq _ _ 8 18446744073709551616 (bitsVal_lt _ _ _) (hM64 _ (by omega)),
              shl_mod_eq _ _ 8 18446744073709551616 (bitsVal_lt _ _ _) (hM64 _ (by omega)),
              shl_mod_eq _ _ 8 18446744073709551616 (bitsVal_lt _ _ _) (hM64 _ (by omega)),
              shl_mod_eq _ _ 8 18446744073709551616 (bitsVal_lt _ _ _) (hM64 _ (by omega)),
              shl_mod_eq _ _ 8 18446744073709551616 (bitsVal_lt _ _ _) (hM64 _ (by omega))]
            rw [Nat.mod_eq_of_lt (lt_of_lt_of_le (bitsVal_lt _ _ _) (hM64 _ (by omega)))]
            rw [or_step, or_step, or_step, or_step, or_step, or_step, or_last, hend]
        · -- seven fragments: tail of n - rb - 40 bits in the seventh byte
          simp only [if_pos hc5, if_pos hc6, if_neg hc7,
            if_neg (show ¬(8:Nat) < 0 by norm_num)]
          rw [read8_spec 8 (advanced r1 (rb + 8 + 8 + 8)) (advanced r1 (rb + 8 + 8 + 8))
            (by omega) (le_refl _) (hfillA _ (by omega)) (advanced_bit_le _ _) (hbA _)
            (havA (rb + 8 + 8 + 8) 8 (by omega))]
          dsimp only
          rw [advanced_advanced]
          rw [read8_spec 8 (advanced r1 (rb + 8 + 8 + 8 + 8))
            (advanced r1 (rb + 8 + 8 + 8 + 8)) (by omega) (le_refl _)
            (hfillA _ (by omega)) (advanced_bit_le _ _) (hbA _)
            (havA (rb + 8 + 8 + 8 + 8) 8 (by omega))]
          dsimp only
          rw [advanced_advanced]
          rw [read8_spec (n - rb - 24 - 8 - 8)
            (advanced r1 (rb + 8 + 8 + 8 + 8 + 8))
            (advanced r1 (rb + 8 + 8 + 8 + 8 + 8)) (by omega) (by omega)
            (hfillA _ (by omega)) (advanced_bit_le _ _) (hbA _)
            (havA (rb + 8 + 8 + 8 + 8 + 8) (n - rb - 24 - 8 - 8) (by omega))]
          dsimp only
          rw [advanced_advanced, read8_zero]
          dsimp only
          rw [read8_zero]
          dsimp only
          simp only [advanced_buf, bitPos_advanced]
          have hend : rb + 8 + 8 + 8 + 8 + 8 + (n - rb - 24 - 8 - 8) = n := by omega
          rw [hend]
          simp only [Prod.mk.injEq, Except.ok.injEq, and_true, Nat.add_zero,
            Nat.shiftLeft_zero, Nat.or_zero, Nat.zero_shiftLeft, Nat.zero_mod, Nat.add_assoc]
          rw [shl_mod_eq _ _ rb 18446744073709551616 (bitsVal_lt _ _ _)
              (by have he : rb + (8 + (8 + (8 + (8 + (8 +
                    (n - rb - 24 - 8 - 8)))))) = n := by omega
                  rw [he]; exact hM64 n (by omega)),
            shl_mod_eq _ _ 8 18446744073709551616 (bitsVal_lt _ _ _) (hM64 _ (by omega)),
            shl_mod_eq _ _ 8 18446744073709551616 (bitsVal_lt _ _ _) (hM64 _ (by omega)),
            shl_mod_eq _ _ 8 18446744073709551616 (bitsVal_lt _ _ _) (hM64 _ (by omega)),
            shl_mod_eq _ _ 8 18446744073709551616 (bitsVal_lt _ _ _) (hM64 _ (by omega)),
            shl_mod_eq _ _ 8 18446744073709551616 (bitsVal_lt _ _ _) (hM64 _ (by omega))]
          rw [Nat.mod_eq_of_lt (lt_of_lt_of_le (bitsVal_lt _ _ _) (hM64 _ (by omega)))]
          rw [or_step, or_step, or_step, or_step, or_step, or_last, hend]
      · -- six fragments: tail of n - rb - 32 bits in the sixth byte
        simp only [if_pos hc5, if_neg hc6, if_neg (show ¬(8:Nat) < 0 by norm_num)]
        rw [read8_spec 8 (advanced r1 (rb + 8 + 8 + 8)) (advanced r1 (rb + 8 + 8 + 8))
          (by omega) (le_refl _) (hfillA _ (by omega)) (advanced_bit_le _ _) (hbA _)
          (havA (rb + 8 + 8 + 8) 8 (by omega))]
        dsimp only
        rw [advanced_advanced]
        rw [read8_spec (n - rb - 24 - 8)
          (advanced r1 (rb + 8 + 8 + 8 + 8))
          (advanced r1 (rb + 8 + 8 + 8 + 8)) (by omega) (by omega)
          (hfillA _ (by omega)) (advanced_bit_le _ _) (hbA _)
          (havA (rb + 8 + 8 + 8 + 8) (n - rb - 24 - 8) (by omega))]
        dsimp only
        rw [advanced_advanced, read8_zero]
        dsimp only
        rw [read8_zero]
        dsimp only
        rw [read8_zero]
        dsimp only
        simp only [advanced_buf, bitPos_advanced]
        have hend : rb + 8 + 8 + 8 + 8 + (n - rb - 24 - 8) = n := by omega
        rw [hend]
        simp only [Prod.mk.injEq, Except.ok.injEq, and_true, Nat.add_zero,
          Nat.shiftLeft_zero, Nat.or_zero, Nat.zero_shiftLeft, Nat.zero_mod, Nat.add_assoc]
        rw [shl_mod_eq _ _ rb 18446744073709551616 (bitsVal_lt _ _ _)
            (by have he : rb + (8 + (8 + (8 + (8 + (n - rb - 24 - 8))))) = n := by omega
                rw [he]; exact hM64 n (by omega)),
          shl_mod_eq _ _ 8 18446744073709551616 (bitsVal_lt _ _ _) (hM64 _ (by omega)),
          shl_mod_eq _ _ 8 18446744073709551616 (bitsVal_lt _ _ _) (hM64 _ (by omega)),
          shl_mod_eq _ _ 8 18446744073709551616 (bitsVal_lt _ _ _) (hM64 _ (by omega)),
          shl_mod_eq _ _ 8 18446744073709551616 (bitsVal_lt _ _ _) (hM64 _ (by omega))]
        rw [Nat.mod_eq_of_lt (lt_of_lt_of_le (bitsVal_lt _ _ _) (hM64 _ (by omega)))]
        rw [or_step, or_step, or_step, or_step, or_last, hend]
    · -- five fragments: tail of n - rb - 24 bits in the fifth byte
      simp only [if_neg hc5, if_neg (show ¬(8:Nat) < 0 by norm_num)]
      rw [read8_spec (n - rb - 24)
        (advanced r1 (rb + 8 + 8 + 8))
        (advanced r1 (rb + 8 + 8 + 8)) (by omega) (by omega)
        (hfillA _ (by omega)) (advanced_bit_le _ _) (hbA _)
        (havA (rb + 8 + 8 + 8) (n - rb - 24) (by omega))]
      dsimp only
      rw [advanced_advanced, read8_zero]
      dsimp only
      rw [read8_zero]
      dsimp only
      rw [read8_zero]
      dsimp only
      rw [read8_zero]
      dsimp only
      simp only [advanced_buf, bitPos_advanced]
      have hend : rb + 8 + 8 + 8 + (n - rb - 24) = n := by omega
      rw [hend]
      simp only [Prod.mk.injEq, Except.ok.injEq, and_true, Nat.add_zero,
        Nat.shiftLeft_zero, Nat.or_zero, Nat.zero_shiftLeft, Nat.zero_mod, Nat.add_assoc]
      rw [shl_mod_eq _ _ rb 18446744073709551616 (bitsVal_lt _ _ _)
          (by have he : rb + (8 + (8 + (8 + (n - rb - 24)))) = n := by omega
              rw [he]; exact hM64 n (by omega)),
        shl_mod_eq _ _ 8 18446744073709551616 (bitsVal_lt _ _ _) (hM64 _ (by omega)),
        shl_mod_eq _ _ 8 18446744073709551616 (bitsVal_lt _ _ _) (hM64 _ (by omega)),
        shl_mod_eq _ _ 8 18446744073709551616 (bitsVal_lt _ _ _) (hM64 _ (by omega))]
      rw [Nat.mod_eq_of_lt (lt_of_lt_of_le (bitsVal_lt _ _ _) (hM64 _ (by omega)))]
      rw [or_step, or_step, or_step, or_last, hend]

/-! ### beBytes lemmas -/

theorem beBytes_zero (v : Nat) : beBytes 0 v = [] := by
  unfold beBytes
  rfl

theorem beBytes_le (n v : Nat) (h1 : 1 ≤ n) (h8 : n ≤ 8) :
    beBytes n v = [(v % 2 ^ n) * 2 ^ (8 - n)] := by
  cases n with
  | zero => omega
  | succ m =>
    unfold beBytes
    rw [dif_pos h8]

theorem beBytes_gt (n v : Nat) (h : 8 < n) :
    beBytes n v = (v / 2 ^ (n - 8) % 256) :: beBytes (n - 8) (v % 2 ^ (n - 8)) := by
  cases n with
  | zero => omega
  | succ m =>
    conv_lhs => unfold beBytes
    rw [dif_neg (by omega)]

theorem beBytes_length (n v : Nat) : (beBytes n v).length = (n + 7) / 8 := by
  induction n using Nat.strong_induction_on generalizing v with
  | _ n ih =>
    by_cases h0 : n = 0
    · subst h0
      rw [beBytes_zero]
      rfl
    · by_cases h8 : n ≤ 8
      · rw [beBytes_le n v (by omega) h8]
        simp only [List.length_singleton]
        omega
      · rw [beBytes_gt n v (by omega)]
        simp only [List.length_cons, ih (n - 8) (by omega)]
        omega

theorem beBytes_lt256 (n v : Nat) : ∀ b ∈ beBytes n v, b < 256 := by
  induction n using Nat.strong_induction_on generalizing v with
  | _ n ih =>
    by_cases h0 : n = 0
    · subst h0
      rw [beBytes_zero]
      simp
    · by_cases h8 : n ≤ 8
      · rw [beBytes_le n v (by omega) h8]
        intro b hbmem
        simp only [List.mem_singleton] at hbmem
        subst hbmem
        calc (v % 2 ^ n) * 2 ^ (8 - n) < 2 ^ n * 2 ^ (8 - n) :=
              mul_lt_mul_of_pos_right (Nat.mod_lt _ (Nat.pos_pow_of_pos _ (by norm_num)))
                (Nat.pos_pow_of_pos _ (by norm_num))
          _ = 2 ^ 8 := by rw [← pow_add]; congr 1; omega
          _ = 256 := by norm_num
      · rw [beBytes_gt n v (by omega)]
        intro b hbmem
        simp only [List.mem_cons] at hbmem
        rcases hbmem with h | h
        · subst h
          exact Nat.mod_lt _ (by norm_num)
        · exact ih (n - 8) (by omega) _ b h

theorem bitsVal_cons_eight (x : Nat) (bs : List Nat) (k : Nat) :
    bitsVal (x :: bs) 8 k = bitsVal bs 0 k := by
  have h := bitsVal_cons_shift x bs 0 k
  simpa using h

theorem beBytes_val (n v : Nat) : bitsVal (beBytes n v) 0 n = v % 2 ^ n := by
  induction n using Nat.strong_induction_on generalizing v with
  | _ n ih =>
    by_cases h0 : n = 0
    · subst h0
      simp [bitsVal, Nat.mod_one]
    · by_cases h8 : n ≤ 8
      · rw [beBytes_le n v (by omega) h8,
          bitsVal_single _ 0 n (by omega)]
        simp only [Nat.zero_div, List.getD_cons_zero, Nat.zero_mod, Nat.zero_sub]
        rw [Nat.mul_div_cancel _ (Nat.pos_pow_of_pos _ (by norm_num)), Nat.mod_mod]
      · rw [beBytes_gt n v (by omega)]
        have hadd := bitsVal_add
          ((v / 2 ^ (n - 8) % 256) :: beBytes (n - 8) (v % 2 ^ (n - 8))) 0 8 (n - 8)
        rw [show 8 + (n - 8) = n from by omega] at hadd
        rw [hadd, bitsVal_single _ 0 8 (by omega)]
        simp only [Nat.zero_div, List.getD_cons_zero, Nat.zero_mod, Nat.zero_sub,
          Nat.sub_self, pow_zero, Nat.div_one, Nat.zero_add]
        rw [bitsVal_cons_eight, ih (n - 8) (by omega)]
        have h256 : (2:Nat) ^ 8 = 256 := by norm_num
        rw [h256, Nat.mod_mod, Nat.mod_mod]
        have hn : (2:Nat) ^ n = 2 ^ (n - 8) * 256 := by
          rw [show n = (n - 8) + 8 from by omega, pow_add]
          norm_num
        rw [hn, Nat.mod_mul]
        ring

/-! ### Writer lemmas: writing n bits of v from a fresh accumulator and
flushing produces exactly the big-endian left-aligned byte image of v
(possibly followed by one extra zero byte from the explicit flush when the
last write already filled the accumulator). -/

theorem shl_sub_one_mod (k M : Nat) (h : 2 ^ k ≤ M + 1) :
    ((1 <<< k) - 1) % (M + 1) = 2 ^ k - 1 := by
  rw [Nat.shiftLeft_eq, one_mul]
  exact Nat.mod_eq_of_lt (by omega)

theorem write8_fresh (n v : Nat) (h1 : 1 ≤ n) (h2 : n ≤ 8) (hv : v < 2 ^ n) :
    ∃ w', (NewWriter []).WriteNBitsOfUint8 n v = (.ok (), w') ∧
      (w'.Flush.dst = beBytes n v ∨ w'.Flush.dst = beBytes n v ++ [0]) := by
  unfold Writer.WriteNBitsOfUint8 NewWriter
  rw [if_neg (by omega), if_neg (by omega)]
  dsimp only
  rw [if_pos (show n ≤ 7 + 1 by omega)]
  have hmask : ((1 <<< n) - 1) % 256 = 2 ^ n - 1 := by
    rw [show (256 : Nat) = 255 + 1 from rfl]
    exact shl_sub_one_mod n 255 (by
      calc (2:Nat) ^ n ≤ 2 ^ 8 := Nat.pow_le_pow_right (by norm_num) h2
        _ = 256 := by norm_num)
  have hand : v &&& ((1 <<< n) - 1) % 256 = v := by
    rw [hmask, Nat.and_pow_two_sub_one_eq_mod, Nat.mod_eq_of_lt hv]
  have hbyte : (v <<< (7 + 1 - n)) % 256 = v * 2 ^ (8 - n) := by
    rw [Nat.shiftLeft_eq, show 7 + 1 - n = 8 - n from rfl]
    apply Nat.mod_eq_of_lt
    calc v * 2 ^ (8 - n) < 2 ^ n * 2 ^ (8 - n) :=
          mul_lt_mul_of_pos_right hv (Nat.pos_pow_of_pos _ (by norm_num))
      _ = 2 ^ 8 := by rw [← pow_add]; congr 1; omega
      _ = 256 := by norm_num
  rw [hand, hbyte]
  have hbe : beBytes n v = [v * 2 ^ (8 - n)] := by
    rw [beBytes_le n v h1 h2, Nat.mod_eq_of_lt hv]
  by_cases hn8 : n = 7 + 1
  · rw [if_pos hn8]
    refine ⟨_, rfl, Or.inr ?_⟩
    unfold Writer.Flush
    dsimp only
    rw [hbe]
    have h8' : n = 8 := by omega
    subst h8'
    norm_num
  · rw [if_neg hn8]
    refine ⟨_, rfl, Or.inl ?_⟩
    unfold Writer.Flush
    dsimp only
    rw [hbe]
    simp

theorem maskM (L s M : Nat) (h : 2 ^ (L + s) ≤ M) :
    (((1 <<< L) - 1) <<< s) % M = (2 ^ L - 1) <<< s := by
  have h1L : (1:Nat) <<< L = 2 ^ L := by rw [Nat.shiftLeft_eq, one_mul]
  rw [h1L, Nat.shiftLeft_eq]
  apply Nat.mod_eq_of_lt
  calc (2 ^ L - 1) * 2 ^ s < 2 ^ L * 2 ^ s :=
        mul_lt_mul_of_pos_right
          (by have := Nat.pos_pow_of_pos L (show 0 < 2 by norm_num); omega)
          (Nat.pos_pow_of_pos _ (by norm_num))
    _ = 2 ^ (L + s) := (pow_add 2 L s).symm
    _ ≤ M := h

theorem frag_val_hi (v L s : Nat) (hL : L ≤ 8) :
    ((v &&& ((2 ^ L - 1) <<< s)) >>> s) % 256 = v / 2 ^ s % 2 ^ L := by
  rw [and_shl_mask_shr]
  apply Nat.mod_eq_of_lt
  calc v / 2 ^ s % 2 ^ L < 2 ^ L := Nat.mod_lt _ (Nat.pos_pow_of_pos _ (by norm_num))
    _ ≤ 2 ^ 8 := Nat.pow_le_pow_right (by norm_num) hL
    _ = 256 := by norm_num

theorem frag_val_mid (v L s : Nat) (hL : L ≤ 8) :
    (((v &&& ((2 ^ L - 1) <<< s)) >>> s) <<< (8 - L)) % 256 =
      (v / 2 ^ s % 2 ^ L) * 2 ^ (8 - L) := by
  rw [and_shl_mask_shr, Nat.shiftLeft_eq]
  apply Nat.mod_eq_of_lt
  calc (v / 2 ^ s % 2 ^ L) * 2 ^ (8 - L) < 2 ^ L * 2 ^ (8 - L) :=
        mul_lt_mul_of_pos_right (Nat.mod_lt _ (Nat.pos_pow_of_pos _ (by norm_num)))
          (Nat.pos_pow_of_pos _ (by norm_num))
    _ = 2 ^ 8 := by rw [← pow_add]; congr 1; omega
    _ = 256 := by norm_num

theorem write16_fresh (n v : Nat) (h1 : 8 < n) (h2 : n ≤ 16) (hv : v < 2 ^ n) :
    ∃ w', (NewWriter []).WriteNBitsOfUint16 n v = (.ok (), w') ∧
      (w'.Flush.dst = beBytes n v ∨ w'.Flush.dst = beBytes n v ++ [0]) := by
  unfold Writer.WriteNBitsOfUint16 NewWriter
  rw [if_neg (by omega), if_neg (by omega), if_neg (by omega)]
  dsimp only
  simp only [if_neg (show ¬8 < n - (7 + 1) by omega)]
  have hb1 : ((v &&& (((1 <<< (7 + 1)) - 1) <<< (n - (7 + 1) + 0)) % 65536) >>>
      (n - (7 + 1) + 0)) % 256 = v / 2 ^ (n - 8) % 256 := by
    have hm : (((1 <<< (7 + 1)) - 1) <<< (n - (7 + 1) + 0)) % 65536 =
        (2 ^ 8 - 1) <<< (n - 8) := by
      rw [Nat.shiftLeft_eq, Nat.shiftLeft_eq, Nat.shiftLeft_eq, one_mul]
      rw [show n - (7 + 1) + 0 = n - 8 from by omega]
      apply Nat.mod_eq_of_lt
      calc (2 ^ 8 - 1) * 2 ^ (n - 8) < 2 ^ 8 * 2 ^ (n - 8) :=
            mul_lt_mul_of_pos_right (by norm_num) (Nat.pos_pow_of_pos _ (by norm_num))
        _ = 2 ^ n := by rw [← pow_add]; congr 1; omega
        _ ≤ 65536 := by
            calc (2:Nat) ^ n ≤ 2 ^ 16 := Nat.pow_le_pow_right (by norm_num) h2
              _ = 65536 := by norm_num
    rw [hm, show n - (7 + 1) + 0 = n - 8 from by omega, and_shl_mask_shr]
    rw [show (2:Nat) ^ 8 = 256 from by norm_num, Nat.mod_mod]
  have hb2 : (((v &&& (((1 <<< (n - (7 + 1))) - 1) <<< 0) % 65536) >>> 0) <<<
      (8 - (n - (7 + 1)))) % 256 = (v % 2 ^ (n - 8)) * 2 ^ (8 - (n - 8)) := by
    have hm : (((1 <<< (n - (7 + 1))) - 1) <<< 0) % 65536 = 2 ^ (n - 8) - 1 := by
      rw [Nat.shiftLeft_zero, Nat.shiftLeft_eq, one_mul,
        show n - (7 + 1) = n - 8 from by omega]
      apply Nat.mod_eq_of_lt
      have : (2:Nat) ^ (n - 8) ≤ 2 ^ 16 := Nat.pow_le_pow_right (by norm_num) (by omega)
      norm_num at this ⊢
      omega
    rw [hm, Nat.and_pow_two_sub_one_eq_mod, Nat.shiftRight_zero, Nat.shiftLeft_eq,
      show n - (7 + 1) = n - 8 from by omega]
    apply Nat.mod_eq_of_lt
    calc (v % 2 ^ (n - 8)) * 2 ^ (8 - (n - 8)) < 2 ^ (n - 8) * 2 ^ (8 - (n - 8)) :=
          mul_lt_mul_of_pos_right (Nat.mod_lt _ (Nat.pos_pow_of_pos _ (by norm_num)))
            (Nat.pos_pow_of_pos _ (by norm_num))
      _ = 2 ^ 8 := by rw [← pow_add]; congr 1; omega
      _ = 256 := by norm_num
  rw [hb1, hb2]
  have hbe : beBytes n v =
      (v / 2 ^ (n - 8) % 256) :: [(v % 2 ^ (n - 8)) * 2 ^ (8 - (n - 8))] := by
    rw [beBytes_gt n v h1, beBytes_le (n - 8) (v % 2 ^ (n - 8)) (by omega) (by omega),
      Nat.mod_mod]
  by_cases hn16 : n - (7 + 1) = 8
  · rw [if_pos hn16]
    refine ⟨_, rfl, Or.inr ?_⟩
    unfold Writer.Flush
    dsimp only
    rw [hbe]
    simp
  · rw [if_neg hn16]
    refine ⟨_, rfl, Or.inl ?_⟩
    unfold Writer.Flush
    dsimp only
    rw [hbe]
    simp

theorem mod_div_byte (v a k : Nat) (h : k = a + 8) :
    (v % 2 ^ k) / 2 ^ a % 256 = v / 2 ^ a % 256 := by
  subst h
  rw [pow_add, show ((2:Nat) ^ 8) = 256 from by norm_num, Nat.mod_mul_right_div_self,
    Nat.mod_mod]

theorem mod_mod_pow (v a k : Nat) (h : a ≤ k) : (v % 2 ^ k) % 2 ^ a = v % 2 ^ a :=
  Nat.mod_mod_of_dvd v (pow_dvd_pow 2 h)

theorem pow2_le_of_le {a : Nat} (b M : Nat) (h : a ≤ b) (hM : 2 ^ b = M) :
    (2:Nat) ^ a ≤ M := by
  subst hM
  exact Nat.pow_le_pow_right (by norm_num) h

theorem write32_fresh (n v : Nat) (h1 : 16 < n) (h2 : n ≤ 32) (hv : v < 2 ^ n) :
    ∃ w', (NewWriter []).WriteNBitsOfUint32 n v = (.ok (), w') ∧
      (w'.Flush.dst = beBytes n v ∨ w'.Flush.dst = beBytes n v ++ [0]) := by
  unfold Writer.WriteNBitsOfUint32 NewWriter
  rw [if_neg (by omega), if_neg (by omega), if_neg (by omega)]
  dsimp only
  by_cases hc3 : 8 < n - 8 - (7 + 1)
  · simp only [if_pos hc3, if_neg (show ¬8 < n - 8 - (7 + 1) - 8 by omega), if_true,
      if_neg (show ¬n - 8 - (7 + 1) - 8 = 0 by omega), if_pos (show (0:Nat) = 0 from rfl)]
    by_cases hn32 : n - 8 - (7 + 1) - 8 = 8
    · simp only [if_pos hn32]
      refine ⟨_, rfl, Or.inr ?_⟩
      simp only [Writer.Flush, List.nil_append, List.singleton_append, List.cons_append,
        List.append_nil, Nat.zero_or]
      rw [beBytes_gt n v (by omega), beBytes_gt (n - 8) (v % 2 ^ (n - 8)) (by omega),
        beBytes_gt (n - 8 - 8) ((v % 2 ^ (n - 8)) % 2 ^ (n - 8 - 8)) (by omega),
        beBytes_le (n - 8 - 8 - 8) (((v % 2 ^ (n - 8)) % 2 ^ (n - 8 - 8)) % 2 ^ (n - 8 - 8 - 8))
          (by omega) (by omega)]
      rw [show 8 + 8 + (n - 8 - (7 + 1) - 8) + 0 = n - 8 from by omega,
        show 8 + (n - 8 - (7 + 1) - 8) + 0 = n - 16 from by omega,
        show n - 8 - (7 + 1) - 8 + 0 = n - 24 from by omega,
        show n - 8 - (7 + 1) - 8 = n - 24 from by omega,
        show n - 8 - 8 = n - 16 from by omega]
      rw [maskM (7 + 1) (n - 8) 4294967296
          (by rw [show 7 + 1 + (n - 8) = n from by omega]
              exact pow2_le_of_le 32 _ h2 (by norm_num)),
        maskM 8 (n - 16) 4294967296 (by exact pow2_le_of_le 32 _ (by omega) (by norm_num)),
        maskM 8 (n - 24) 4294967296 (by exact pow2_le_of_le 32 _ (by omega) (by norm_num)),
        maskM (n - 24) 0 4294967296 (by exact pow2_le_of_le 32 _ (by omega) (by norm_num))]
      rw [frag_val_hi v (7 + 1) (n - 8) (by norm_num),
        frag_val_mid v 8 (n - 16) (le_refl 8),
        frag_val_mid v 8 (n - 24) (le_refl 8),
        frag_val_mid v (n - 24) 0 (by omega)]
      rw [show (2:Nat) ^ (7 + 1) = 256 from by norm_num,
        show (8:Nat) - 8 = 0 from rfl, pow_zero, mul_one, Nat.div_one]
      rw [Nat.mod_mod, mod_mod_pow v (n - 16) (n - 8) (by omega),
        mod_div_byte v (n - 16) (n - 8) (by omega),
        mod_div_byte v (n - 24) (n - 16) (by omega),
        mod_mod_pow v (n - 24) (n - 16) (by omega)]
      simp only [Nat.mul_one, List.cons_append, List.singleton_append, List.nil_append]
    · simp only [if_neg hn32]
      refine ⟨_, rfl, Or.inl ?_⟩
      simp only [Writer.Flush, List.nil_append, List.singleton_append, List.cons_append,
        List.append_nil, Nat.zero_or]
      rw [beBytes_gt n v (by omega), beBytes_gt (n - 8) (v % 2 ^ (n - 8)) (by omega),
        beBytes_gt (n - 8 - 8) ((v % 2 ^ (n - 8)) % 2 ^ (n - 8 - 8)) (by omega),
        beBytes_le (n - 8 - 8 - 8) (((v % 2 ^ (n - 8)) % 2 ^ (n - 8 - 8)) % 2 ^ (n - 8 - 8 - 8))
          (by omega) (by omega)]
      rw [show 8 + 8 + (n - 8 - (7 + 1) - 8) + 0 = n - 8 from by omega,
        show 8 + (n - 8 - (7 + 1) - 8) + 0 = n - 16 from by omega,
        show n - 8 - (7 + 1) - 8 + 0 = n - 24 from by omega,
        show n - 8 - (7 + 1) - 8 = n - 24 from by omega,
        show n - 8 - 8 = n - 16 from by omega]
      rw [maskM (7 + 1) (n - 8) 4294967296
          (by rw [show 7 + 1 + (n - 8) = n from by omega]
              exact pow2_le_of_le 32 _ h2 (by norm_num)),
        maskM 8 (n - 16) 4294967296 (by exact pow2_le_of_le 32 _ (by omega) (by norm_num)),
        maskM 8 (n - 24) 4294967296 (by exact pow2_le_of_le 32 _ (by omega) (by norm_num)),
        maskM (n - 24) 0 4294967296 (by exact pow2_le_of_le 32 _ (by omega) (by norm_num))]
      rw [frag_val_hi v (7 + 1) (n - 8) (by norm_num),
        frag_val_mid v 8 (n - 16) (le_refl 8),
        frag_val_mid v 8 (n - 24) (le_refl 8),
        frag_val_mid v (n - 24) 0 (by omega)]
      rw [show (2:Nat) ^ (7 + 1) = 256 from by norm_num,
        show (8:Nat) - 8 = 0 from rfl, pow_zero, mul_one, Nat.div_one]
      rw [Nat.mod_mod, mod_mod_pow v (n - 16) (n - 8) (by omega),
        mod_div_byte v (n - 16) (n - 8) (by omega),
        mod_div_byte v (n - 24) (n - 16) (by omega),
        mod_mod_pow v (n - 24) (n - 16) (by omega)]
      simp only [Nat.mul_one]
  · simp only [if_neg hc3, if_neg (show ¬(8:Nat) < 0 by norm_num),
      if_pos (show (0:Nat) = 0 from rfl)]
    by_cases hn24 : n - 8 - (7 + 1) = 8
    · simp only [if_pos hn24]
      refine ⟨_, rfl, Or.inr ?_⟩
      simp only [Writer.Flush, List.nil_append, List.singleton_append, List.cons_append,
        List.append_nil, Nat.zero_or]
      rw [beBytes_gt n v (by omega), beBytes_gt (n - 8) (v % 2 ^ (n - 8)) (by omega),
        beBytes_le (n - 8 - 8) ((v % 2 ^ (n - 8)) % 2 ^ (n - 8 - 8)) (by omega) (by omega)]
      rw [show 8 + (n - 8 - (7 + 1)) + 0 + 0 = n - 8 from by omega,
        show n - 8 - (7 + 1) + 0 + 0 = n - 16 from by omega,
        show (0:Nat) + 0 = 0 from rfl,
        show n - 8 - (7 + 1) = n - 16 from by omega]
      rw [maskM (7 + 1) (n - 8) 4294967296
          (by rw [show 7 + 1 + (n - 8) = n from by omega]
              exact pow2_le_of_le 32 _ h2 (by norm_num)),
        maskM 8 (n - 16) 4294967296
          (by exact pow2_le_of_le 32 _ (by omega) (by norm_num)),
        maskM (n - 16) 0 4294967296
          (by exact pow2_le_of_le 32 _ (by omega) (by norm_num))]
      rw [frag_val_hi v (7 + 1) (n - 8) (by norm_num),
        frag_val_mid v 8 (n - 16) (le_refl 8),
        frag_val_mid v (n - 16) 0 (by omega)]
      rw [show (2:Nat) ^ (7 + 1) = 256 from by norm_num,
        show (8:Nat) - 8 = 0 from rfl, pow_zero, mul_one, Nat.div_one]
      rw [Nat.mod_mod, mod_div_byte v (n - 16) (n - 8) (by omega),
        mod_mod_pow v (n - 16) (n - 8) (by omega)]
      simp only [List.cons_append, List.singleton_append, List.nil_append]
    · simp only [if_neg hn24]
      refine ⟨_, rfl, Or.inl ?_⟩
      simp only [Writer.Flush, List.nil_append, List.singleton_append, List.cons_append,
        List.append_nil, Nat.zero_or]
      rw [beBytes_gt n v (by omega), beBytes_gt (n - 8) (v % 2 ^ (n - 8)) (by omega),
        beBytes_le (n - 8 - 8) ((v % 2 ^ (n - 8)) % 2 ^ (n - 8 - 8)) (by omega) (by omega)]
      rw [show 8 + (n - 8 - (7 + 1)) + 0 + 0 = n - 8 from by omega,
        show n - 8 - (7 + 1) + 0 + 0 = n - 16 from by omega,
        show (0:Nat) + 0 = 0 from rfl,
        show n - 8 - (7 + 1) = n - 16 from by omega]
      rw [maskM (7 + 1) (n - 8) 4294967296
          (by rw [show 7 + 1 + (n - 8) = n from by omega]
              exact pow2_le_of_le 32 _ h2 (by norm_num)),
        maskM 8 (n - 16) 4294967296
          (by exact pow2_le_of_le 32 _ (by omega) (by norm_num)),
        maskM (n - 16) 0 4294967296
          (by exact pow2_le_of_le 32 _ (by omega) (by norm_num))]
      rw [frag_val_hi v (7 + 1) (n - 8) (by norm_num),
        frag_val_mid v 8 (n - 16) (le_refl 8),
        frag_val_mid v (n - 16) 0 (by omega)]
      rw [show (2:Nat) ^ (7 + 1) = 256 from by norm_num,
        show (8:Nat) - 8 = 0 from rfl, pow_zero, mul_one, Nat.div_one]
      rw [Nat.mod_mod, mod_div_byte v (n - 16) (n - 8) (by omega),
        mod_mod_pow v (n - 16) (n - 8) (by omega)]

theorem write64_fresh (n v : Nat) (h1 : 32 < n) (h2 : n ≤ 64) (hv : v < 2 ^ n) :
    ∃ w', (NewWriter []).WriteNBitsOfUint64 n v = (.ok (), w') ∧
      (w'.Flush.dst = beBytes n v ∨ w'.Flush.dst = beBytes n v ++ [0]) := by
  unfold Writer.WriteNBitsOfUint64 NewWriter
  rw [if_neg (by omega), if_neg (by omega), if_neg (by omega)]
  dsimp only
  by_cases hc5 : 8 < n - 24 - (7 + 1)
  · by_cases hc6 : 8 < n - 24 - (7 + 1) - 8
    · by_cases hc7 : 8 < n - 24 - (7 + 1) - 8 - 8
      · simp only [if_pos hc5, if_pos hc6, if_pos hc7,
          if_neg (show ¬8 < n - 24 - (7 + 1) - 8 - 8 - 8 by omega), if_true,
          if_neg (show ¬n - 24 - (7 + 1) - 8 = 0 by omega),
          if_neg (show ¬n - 24 - (7 + 1) - 8 - 8 = 0 by omega),
          if_neg (show ¬n - 24 - (7 + 1) - 8 - 8 - 8 = 0 by omega),
          if_pos (show (0:Nat) = 0 from rfl)]
        by_cases hfull : n - 24 - (7 + 1) - 8 - 8 - 8 = 8
        · simp only [if_pos hfull]
          refine ⟨_, rfl, Or.inr ?_⟩
          simp only [Writer.Flush, List.nil_append, List.singleton_append, List.cons_append,
            List.append_nil, Nat.zero_or]
          rw [beBytes_gt n v (by omega),
            beBytes_gt (n - 8) (v % 2 ^ (n - 8)) (by omega),
            beBytes_gt (n - 8 - 8) ((v % 2 ^ (n - 8)) % 2 ^ (n - 8 - 8)) (by omega),
            beBytes_gt (n - 8 - 8 - 8) (((v % 2 ^ (n - 8)) % 2 ^ (n - 8 - 8)) % 2 ^ (n - 8 - 8 - 8)) (by omega),
            beBytes_gt (n - 8 - 8 - 8 - 8) ((((v % 2 ^ (n - 8)) % 2 ^ (n - 8 - 8)) % 2 ^ (n - 8 - 8 - 8)) % 2 ^ (n - 8 - 8 - 8 - 8)) (by omega),
            beBytes_gt (n - 8 - 8 - 8 - 8 - 8) (((((v % 2 ^ (n - 8)) % 2 ^ (n - 8 - 8)) % 2 ^ (n - 8 - 8 - 8)) % 2 ^ (n - 8 - 8 - 8 - 8)) % 2 ^ (n - 8 - 8 - 8 - 8 - 8)) (by omega),
            beBytes_gt (n - 8 - 8 - 8 - 8 - 8 - 8) ((((((v % 2 ^ (n - 8)) % 2 ^ (n - 8 - 8)) % 2 ^ (n - 8 - 8 - 8)) % 2 ^ (n - 8 - 8 - 8 - 8)) % 2 ^ (n - 8 - 8 - 8 - 8 - 8)) % 2 ^ (n - 8 - 8 - 8 - 8 - 8 - 8)) (by omega),
            beBytes_le (n - 8 - 8 - 8 - 8 - 8 - 8 - 8) (((((((v % 2 ^ (n - 8)) % 2 ^ (n - 8 - 8)) % 2 ^ (n - 8 - 8 - 8)) % 2 ^ (n - 8 - 8 - 8 - 8)) % 2 ^ (n - 8 - 8 - 8 - 8 - 8)) % 2 ^ (n - 8 - 8 - 8 - 8 - 8 - 8)) % 2 ^ (n - 8 - 8 - 8 - 8 - 8 - 8 - 8))
              (by omega) (by omega)]
          rw [show 8 + (8 + 8 + 8 + 8 + 8 + (n - 24 - (7 + 1) - 8 - 8 - 8) + 0) = n - 8 from by omega,
            show 8 + 8 + 8 + 8 + 8 + (n - 24 - (7 + 1) - 8 - 8 - 8) + 0 = n - 16 from by omega,
            show 8 + 8 + 8 + 8 + (n - 24 - (7 + 1) - 8 - 8 - 8) + 0 = n - 24 from by omega,
            show 8 + 8 + 8 + (n - 24 - (7 + 1) - 8 - 8 - 8) + 0 = n - 32 from by omega,
            show 8 + 8 + (n - 24 - (7 + 1) - 8 - 8 - 8) + 0 = n - 40 from by omega,
            show 8 + (n - 24 - (7 + 1) - 8 - 8 - 8) + 0 = n - 48 from by omega,
            show (n - 24 - (7 + 1) - 8 - 8 - 8) + 0 = n - 56 from by omega,
            show n - 24 - (7 + 1) - 8 - 8 - 8 = n - 56 from by omega,
  show n - 8 - 8 - 8 - 8 - 8 - 8 - 8 = n - 56 from by omega,
            show n - 8 - 8 - 8 - 8 - 8 - 8 = n - 48 from by omega,
            show n - 8 - 8 - 8 - 8 - 8 = n - 40 from by omega,
            show n - 8 - 8 - 8 - 8 = n - 32 from by omega,
            show n - 8 - 8 - 8 = n - 24 from by omega,
            show n - 8 - 8 = n - 16 from by omega]
          rw [maskM (7 + 1) (n - 8) 18446744073709551616
              (by rw [show 7 + 1 + (n - 8) = n from by omega]
                  exact pow2_le_of_le 64 _ h2 (by norm_num)),
            maskM 8 (n - 16) 18446744073709551616
              (by exact pow2_le_of_le 64 _ (by omega) (by norm_num)),
            maskM 8 (n - 24) 18446744073709551616
              (by exact pow2_le_of_le 64 _ (by omega) (by norm_num)),
            maskM 8 (n - 32) 18446744073709551616
              (by exact pow2_le_of_le 64 _ (by omega) (by norm_num)),
            maskM 8 (n - 40) 18446744073709551616
              (by exact pow2_le_of_le 64 _ (by omega) (by norm_num)),
            maskM 8 (n - 48) 18446744073709551616
              (by exact pow2_le_of_le 64 _ (by omega) (by norm_num)),
            maskM 8 (n - 56) 18446744073709551616
              (by exact pow2_le_of_le 64 _ (by omega) (by norm_num)),
            maskM (n - 56) 0 18446744073709551616
              (by exact pow2_le_of_le 64 _ (by omega) (by norm_num))]
          rw [frag_val_hi v (7 + 1) (n - 8) (by norm_num),
            frag_val_mid v 8 (n - 16) (le_refl 8),
            frag_val_mid v 8 (n - 24) (le_refl 8),
            frag_val_mid v 8 (n - 32) (le_refl 8),
            frag_val_mid v 8 (n - 40) (le_refl 8),
            frag_val_mid v 8 (n - 48) (le_refl 8),
            frag_val_mid v 8 (n - 56) (le_refl 8),
            frag_val_mid v (n - 56) 0 (by omega)]
          rw [show (2:Nat) ^ (7 + 1) = 256 from by norm_num,
            show (8:Nat) - 8 = 0 from rfl, pow_zero, mul_one, Nat.div_one]
          rw [Nat.mod_mod,
            mod_mod_pow v (n - 16) (n - 8) (by omega),
            mod_mod_pow v (n - 24) (n - 16) (by omega),
            mod_mod_pow v (n - 32) (n - 24) (by omega),
            mod_mod_pow v (n - 40) (n - 32) (by omega),
            mod_mod_pow v (n - 48) (n - 40) (by omega),
            mod_mod_pow v (n - 56) (n - 48) (by omega),
            mod_div_byte v (n - 16) (n - 8) (by omega),
            mod_div_byte v (n - 24) (n - 16) (by omega),
            mod_div_byte v (n - 32) (n - 24) (by omega),
            mod_div_byte v (n - 40) (n - 32) (by omega),
            mod_div_byte v (n - 48) (n - 40) (by omega),
            mod_div_byte v (n - 56) (n - 48) (by omega)]
          simp only [Nat.mul_one, List.cons_append, List.singleton_append, List.nil_append]
        · simp only [if_neg hfull]
          refine ⟨_, rfl, Or.inl ?_⟩
          simp only [Writer.Flush, List.nil_append, List.singleton_append, List.cons_append,
            List.append_nil, Nat.zero_or]
          rw [beBytes_gt n v (by omega),
            beBytes_gt (n - 8) (v % 2 ^ (n - 8)) (by omega),
            beBytes_gt (n - 8 - 8) ((v % 2 ^ (n - 8)) % 2 ^ (n - 8 - 8)) (by omega),
            beBytes_gt (n - 8 - 8 - 8) (((v % 2 ^ (n - 8)) % 2 ^ (n - 8 - 8)) % 2 ^ (n - 8 - 8 - 8)) (by omega),
            beBytes_gt (n - 8 - 8 - 8 - 8) ((((v % 2 ^ (n - 8)) % 2 ^ (n - 8 - 8)) % 2 ^ (n - 8 - 8 - 8)) % 2 ^ (n - 8 - 8 - 8 - 8)) (by omega),
            beBytes_gt (n - 8 - 8 - 8 - 8 - 8) (((((v % 2 ^ (n - 8)) % 2 ^ (n - 8 - 8)) % 2 ^ (n - 8 - 8 - 8)) % 2 ^ (n - 8 - 8 - 8 - 8)) % 2 ^ (n - 8 - 8 - 8 - 8 - 8)) (by omega),
            beBytes_gt (n - 8 - 8 - 8 - 8 - 8 - 8) ((((((v % 2 ^ (n - 8)) % 2 ^ (n - 8 - 8)) % 2 ^ (n - 8 - 8 - 8)) % 2 ^ (n - 8 - 8 - 8 - 8)) % 2 ^ (n - 8 - 8 - 8 - 8 - 8)) % 2 ^ (n - 8 - 8 - 8 - 8 - 8 - 8)) (by omega),
            beBytes_le (n - 8 - 8 - 8 - 8 - 8 - 8 - 8) (((((((v % 2 ^ (n - 8)) % 2 ^ (n - 8 - 8)) % 2 ^ (n - 8 - 8 - 8)) % 2 ^ (n - 8 - 8 - 8 - 8)) % 2 ^ (n - 8 - 8 - 8 - 8 - 8)) % 2 ^ (n - 8 - 8 - 8 - 8 - 8 - 8)) % 2 ^ (n - 8 - 8 - 8 - 8 - 8 - 8 - 8))
              (by omega) (by omega)]
          rw [show 8 + (8 + 8 + 8 + 8 + 8 + (n - 24 - (7 + 1) - 8 - 8 - 8) + 0) = n - 8 from by omega,
            show 8 + 8 + 8 + 8 + 8 + (n - 24 - (7 + 1) - 8 - 8 - 8) + 0 = n - 16 from by omega,
            show 8 + 8 + 8 + 8 + (n - 24 - (7 + 1) - 8 - 8 - 8) + 0 = n - 24 from by omega,
            show 8 + 8 + 8 + (n - 24 - (7 + 1) - 8 - 8 - 8) + 0 = n - 32 from by omega,
            show 8 + 8 + (n - 24 - (7 + 1) - 8 - 8 - 8) + 0 = n - 40 from by omega,
            show 8 + (n - 24 - (7 + 1) - 8 - 8 - 8) + 0 = n - 48 from by omega,
            show (n - 24 - (7 + 1) - 8 - 8 - 8) + 0 = n - 56 from by omega,
            show n - 24 - (7 + 1) - 8 - 8 - 8 = n - 56 from by omega,
  show n - 8 - 8 - 8 - 8 - 8 - 8 - 8 = n - 56 from by omega,
            show n - 8 - 8 - 8 - 8 - 8 - 8 = n - 48 from by omega,
            show n - 8 - 8 - 8 - 8 - 8 = n - 40 from by omega,
            show n - 8 - 8 - 8 - 8 = n - 32 from by omega,
            show n - 8 - 8 - 8 = n - 24 from by omega,
            show n - 8 - 8 = n - 16 from by omega]
          rw [maskM (7 + 1) (n - 8) 18446744073709551616
              (by rw [show 7 + 1 + (n - 8) = n from by omega]
                  exact pow2_le_of_le 64 _ h2 (by norm_num)),
            maskM 8 (n - 16) 18446744073709551616
              (by exact pow2_le_of_le 64 _ (by omega) (by norm_num)),
            maskM 8 (n - 24) 18446744073709551616
              (by exact pow2_le_of_le 64 _ (by omega) (by norm_num)),
            maskM 8 (n - 32) 18446744073709551616
              (by exact pow2_le_of_le 64 _ (by omega) (by norm_num)),
            maskM 8 (n - 40) 18446744073709551616
              (by exact pow2_le_of_le 64 _ (by omega) (by norm_num)),
            maskM 8 (n - 48) 18446744073709551616
              (by exact pow2_le_of_le 64 _ (by omega) (by norm_num)),
            maskM 8 (n - 56) 18446744073709551616
              (by exact pow2_le_of_le 64 _ (by omega) (by norm_num)),
            maskM (n - 56) 0 18446744073709551616
              (by exact pow2_le_of_le 64 _ (by omega) (by norm_num))]
          rw [frag_val_hi v (7 + 1) (n - 8) (by norm_num),
            frag_val_mid v 8 (n - 16) (le_refl 8),
            frag_val_mid v 8 (n - 24) (le_refl 8),
            frag_val_mid v 8 (n - 32) (le_refl 8),
            frag_val_mid v 8 (n - 40) (le_refl 8),
            frag_val_mid v 8 (n - 48) (le_refl 8),
            frag_val_mid v 8 (n - 56) (le_refl 8),
            frag_val_mid v (n - 56) 0 (by omega)]
          rw [show (2:Nat) ^ (7 + 1) = 256 from by norm_num,
            show (8:Nat) - 8 = 0 from rfl, pow_zero, mul_one, Nat.div_one]
          rw [Nat.mod_mod,
            mod_mod_pow v (n - 16) (n - 8) (by omega),
            mod_mod_pow v (n - 24) (n - 16) (by omega),
            mod_mod_pow v (n - 32) (n - 24) (by omega),
            mod_mod_pow v (n - 40) (n - 32) (by omega),
            mod_mod_pow v (n - 48) (n - 40) (by omega),
            mod_mod_pow v (n - 56) (n - 48) (by omega),
            mod_div_byte v (n - 16) (n - 8) (by omega),
            mod_div_byte v (n - 24) (n - 16) (by omega),
            mod_div_byte v (n - 32) (n - 24) (by omega),
            mod_div_byte v (n - 40) (n - 32) (by omega),
            mod_div_byte v (n - 48) (n - 40) (by omega),
            mod_div_byte v (n - 56) (n - 48) (by omega)]
          simp only [Nat.mul_one]
      · simp only [if_pos hc5, if_pos hc6, if_neg hc7,
          if_neg (show ¬(8:Nat) < 0 by norm_num), if_true,
          if_neg (show ¬n - 24 - (7 + 1) - 8 = 0 by omega),
          if_neg (show ¬n - 24 - (7 + 1) - 8 - 8 = 0 by omega),
          if_pos (show (0:Nat) = 0 from rfl)]
        by_cases hfull : n - 24 - (7 + 1) - 8 - 8 = 8
        · simp only [if_pos hfull]
          refine ⟨_, rfl, Or.inr ?_⟩
          simp only [Writer.Flush, List.nil_append, List.singleton_append, List.cons_append,
            List.append_nil, Nat.zero_or]
          rw [beBytes_gt n v (by omega),
            beBytes_gt (n - 8) (v % 2 ^ (n - 8)) (by omega),
            beBytes_gt (n - 8 - 8) ((v % 2 ^ (n - 8)) % 2 ^ (n - 8 - 8)) (by omega),
            beBytes_gt (n - 8 - 8 - 8) (((v % 2 ^ (n - 8)) % 2 ^ (n - 8 - 8)) % 2 ^ (n - 8 - 8 - 8)) (by omega),
            beBytes_gt (n - 8 - 8 - 8 - 8) ((((v % 2 ^ (n - 8)) % 2 ^ (n - 8 - 8)) % 2 ^ (n - 8 - 8 - 8)) % 2 ^ (n - 8 - 8 - 8 - 8)) (by omega),
            beBytes_gt (n - 8 - 8 - 8 - 8 - 8) (((((v % 2 ^ (n - 8)) % 2 ^ (n - 8 - 8)) % 2 ^ (n - 8 - 8 - 8)) % 2 ^ (n - 8 - 8 - 8 - 8)) % 2 ^ (n - 8 - 8 - 8 - 8 - 8)) (by omega),
            beBytes_le (n - 8 - 8 - 8 - 8 - 8 - 8) ((((((v % 2 ^ (n - 8)) % 2 ^ (n - 8 - 8)) % 2 ^ (n - 8 - 8 - 8)) % 2 ^ (n - 8 - 8 - 8 - 8)) % 2 ^ (n - 8 - 8 - 8 - 8 - 8)) % 2 ^ (n - 8 - 8 - 8 - 8 - 8 - 8))
              (by omega) (by omega)]
          rw [show 8 + (8 + 8 + 8 + 8 + (n - 24 - (7 + 1) - 8 - 8) + 0 + 0) = n - 8 from by omega,
            show 8 + 8 + 8 + 8 + (n - 24 - (7 + 1) - 8 - 8) + 0 + 0 = n - 16 from by omega,
            show 8 + 8 + 8 + (n - 24 - (7 + 1) - 8 - 8) + 0 + 0 = n - 24 from by omega,
            show 8 + 8 + (n - 24 - (7 + 1) - 8 - 8) + 0 + 0 = n - 32 from by omega,
            show 8 + (n - 24 - (7 + 1) - 8 - 8) + 0 + 0 = n - 40 from by omega,
            show (n - 24 - (7 + 1) - 8 - 8) + 0 + 0 = n - 48 from by omega,
            show n - 24 - (7 + 1) - 8 - 8 = n - 48 from by omega,
  show n - 8 - 8 - 8 - 8 - 8 - 8 = n - 48 from by omega,
            show n - 8 - 8 - 8 - 8 - 8 = n - 40 from by omega,
            show n - 8 - 8 - 8 - 8 = n - 32 from by omega,
            show n - 8 - 8 - 8 = n - 24 from by omega,
            show n - 8 - 8 = n - 16 from by omega]
          rw [maskM (7 + 1) (n - 8) 18446744073709551616
              (by rw [show 7 + 1 + (n - 8) = n from by omega]
                  exact pow2_le_of_le 64 _ h2 (by norm_num)),
            maskM 8 (n - 16) 18446744073709551616
              (by exact pow2_le_of_le 64 _ (by omega) (by norm_num)),
            maskM 8 (n - 24) 18446744073709551616
              (by exact pow2_le_of_le 64 _ (by omega) (by norm_num)),
            maskM 8 (n - 32) 18446744073709551616
              (by exact pow2_le_of_le 64 _ (by omega) (by norm_num)),
            maskM 8 (n - 40) 18446744073709551616
              (by exact pow2_le_of_le 64 _ (by omega) (by norm_num)),
            maskM 8 (n - 48) 18446744073709551616
              (by exact pow2_le_of_le 64 _ (by omega) (by norm_num)),
            maskM (n - 48) 0 18446744073709551616
              (by exact pow2_le_of_le 64 _ (by omega) (by norm_num))]
          rw [frag_val_hi v (7 + 1) (n - 8) (by norm_num),
            frag_val_mid v 8 (n - 16) (le_refl 8),
            frag_val_mid v 8 (n - 24) (le_refl 8),
            frag_val_mid v 8 (n - 32) (le_refl 8),
            frag_val_mid v 8 (n - 40) (le_refl 8),
            frag_val_mid v 8 (n - 48) (le_refl 8),
            frag_val_mid v (n - 48) 0 (by omega)]
          rw [show (2:Nat) ^ (7 + 1) = 256 from by norm_num,
            show (8:Nat) - 8 = 0 from rfl, pow_zero, mul_one, Nat.div_one]
          rw [Nat.mod_mod,
            mod_mod_pow v (n - 16) (n - 8) (by omega),
            mod_mod_pow v (n - 24) (n - 16) (by omega),
            mod_mod_pow v (n - 32) (n - 24) (by omega),
            mod_mod_pow v (n - 40) (n - 32) (by omega),
            mod_mod_pow v (n - 48) (n - 40) (by omega),
            mod_div_byte v (n - 16) (n - 8) (by omega),
            mod_div_byte v (n - 24) (n - 16) (by omega),
            mod_div_byte v (n - 32) (n - 24) (by omega),
            mod_div_byte v (n - 40) (n - 32) (by omega),
            mod_div_byte v (n - 48) (n - 40) (by omega)]
          simp only [Nat.mul_one, List.cons_append, List.singleton_append, List.nil_append]
        · simp only [if_neg hfull]
          refine ⟨_, rfl, Or.inl ?_⟩
          simp only [Writer.Flush, List.nil_append, List.singleton_append, List.cons_append,
            List.append_nil, Nat.zero_or]
          rw [beBytes_gt n v (by omega),
            beBytes_gt (n - 8) (v % 2 ^ (n - 8)) (by omega),
            beBytes_gt (n - 8 - 8) ((v % 2 ^ (n - 8)) % 2 ^ (n - 8 - 8)) (by omega),
            beBytes_gt (n - 8 - 8 - 8) (((v % 2 ^ (n - 8)) % 2 ^ (n - 8 - 8)) % 2 ^ (n - 8 - 8 - 8)) (by omega),
            beBytes_gt (n - 8 - 8 - 8 - 8) ((((v % 2 ^ (n - 8)) % 2 ^ (n - 8 - 8)) % 2 ^ (n - 8 - 8 - 8)) % 2 ^ (n - 8 - 8 - 8 - 8)) (by omega),
            beBytes_gt (n - 8 - 8 - 8 - 8 - 8) (((((v % 2 ^ (n - 8)) % 2 ^ (n - 8 - 8)) % 2 ^ (n - 8 - 8 - 8)) % 2 ^ (n - 8 - 8 - 8 - 8)) % 2 ^ (n - 8 - 8 - 8 - 8 - 8)) (by omega),
            beBytes_le (n - 8 - 8 - 8 - 8 - 8 - 8) ((((((v % 2 ^ (n - 8)) % 2 ^ (n - 8 - 8)) % 2 ^ (n - 8 - 8 - 8)) % 2 ^ (n - 8 - 8 - 8 - 8)) % 2 ^ (n - 8 - 8 - 8 - 8 - 8)) % 2 ^ (n - 8 - 8 - 8 - 8 - 8 - 8))
              (by omega) (by omega)]
          rw [show 8 + (8 + 8 + 8 + 8 + (n - 24 - (7 + 1) - 8 - 8) + 0 + 0) = n - 8 from by omega,
            show 8 + 8 + 8 + 8 + (n - 24 - (7 + 1) - 8 - 8) + 0 + 0 = n - 16 from by omega,
            show 8 + 8 + 8 + (n - 24 - (7 + 1) - 8 - 8) + 0 + 0 = n - 24 from by omega,
            show 8 + 8 + (n - 24 - (7 + 1) - 8 - 8) + 0 + 0 = n - 32 from by omega,
            show 8 + (n - 24 - (7 + 1) - 8 - 8) + 0 + 0 = n - 40 from by omega,
            show (n - 24 - (7 + 1) - 8 - 8) + 0 + 0 = n - 48 from by omega,
            show n - 24 - (7 + 1) - 8 - 8 = n - 48 from by omega,
  show n - 8 - 8 - 8 - 8 - 8 - 8 = n - 48 from by omega,
            show n - 8 - 8 - 8 - 8 - 8 = n - 40 from by omega,
            show n - 8 - 8 - 8 - 8 = n - 32 from by omega,
            show n - 8 - 8 - 8 = n - 24 from by omega,
            show n - 8 - 8 = n - 16 from by omega]
          rw [maskM (7 + 1) (n - 8) 18446744073709551616
              (by rw [show 7 + 1 + (n - 8) = n from by omega]
                  exact pow2_le_of_le 64 _ h2 (by norm_num)),
            maskM 8 (n - 16) 18446744073709551616
              (by exact pow2_le_of_le 64 _ (by omega) (by norm_num)),
            maskM 8 (n - 24) 18446744073709551616
              (by exact pow2_le_of_le 64 _ (by omega) (by norm_num)),
            maskM 8 (n - 32) 18446744073709551616
              (by exact pow2_le_of_le 64 _ (by omega) (by norm_num)),
            maskM 8 (n - 40) 18446744073709551616
              (by exact pow2_le_of_le 64 _ (by omega) (by norm_num)),
            maskM 8 (n - 48) 18446744073709551616
              (by exact pow2_le_of_le 64 _ (by omega) (by norm_num)),
            maskM (n - 48) 0 18446744073709551616
              (by exact pow2_le_of_le 64 _ (by omega) (by norm_num))]
          rw [frag_val_hi v (7 + 1) (n - 8) (by norm_num),
            frag_val_mid v 8 (n - 16) (le_refl 8),
            frag_val_mid v 8 (n - 24) (le_refl 8),
            frag_val_mid v 8 (n - 32) (le_refl 8),
            frag_val_mid v 8 (n - 40) (le_refl 8),
            frag_val_mid v 8 (n - 48) (le_refl 8),
            frag_val_mid v (n - 48) 0 (by omega)]
          rw [show (2:Nat) ^ (7 + 1) = 256 from by norm_num,
            show (8:Nat) - 8 = 0 from rfl, pow_zero, mul_one, Nat.div_one]
          rw [Nat.mod_mod,
            mod_mod_pow v (n - 16) (n - 8) (by omega),
            mod_mod_pow v (n - 24) (n - 16) (by omega),
            mod_mod_pow v (n - 32) (n - 24) (by omega),
            mod_mod_pow v (n - 40) (n - 32) (by omega),
            mod_mod_pow v (n - 48) (n - 40) (by omega),
            mod_div_byte v (n - 16) (n - 8) (by omega),
            mod_div_byte v (n - 24) (n - 16) (by omega),
            mod_div_byte v (n - 32) (n - 24) (by omega),
            mod_div_byte v (n - 40) (n - 32) (by omega),
            mod_div_byte v (n - 48) (n - 40) (by omega)]
          simp only [Nat.mul_one]
    · simp only [if_pos hc5, if_neg hc6, if_neg (show ¬(8:Nat) < 0 by norm_num), if_true,
        if_neg (show ¬n - 24 - (7 + 1) - 8 = 0 by omega),
        if_pos (show (0:Nat) = 0 from rfl)]
      by_cases hfull : n - 24 - (7 + 1) - 8 = 8
      · simp only [if_pos hfull]
        refine ⟨_, rfl, Or.inr ?_⟩
        simp only [Writer.Flush, List.nil_append, List.singleton_append, List.cons_append,
          List.append_nil, Nat.zero_or]
        rw [beBytes_gt n v (by omega),
          beBytes_gt (n - 8) (v % 2 ^ (n - 8)) (by omega),
          beBytes_gt (n - 8 - 8) ((v % 2 ^ (n - 8)) % 2 ^ (n - 8 - 8)) (by omega),
          beBytes_gt (n - 8 - 8 - 8) (((v % 2 ^ (n - 8)) % 2 ^ (n - 8 - 8)) % 2 ^ (n - 8 - 8 - 8)) (by omega),
          beBytes_gt (n - 8 - 8 - 8 - 8) ((((v % 2 ^ (n - 8)) % 2 ^ (n - 8 - 8)) % 2 ^ (n - 8 - 8 - 8)) % 2 ^ (n - 8 - 8 - 8 - 8)) (by omega),
          beBytes_le (n - 8 - 8 - 8 - 8 - 8) (((((v % 2 ^ (n - 8)) % 2 ^ (n - 8 - 8)) % 2 ^ (n - 8 - 8 - 8)) % 2 ^ (n - 8 - 8 - 8 - 8)) % 2 ^ (n - 8 - 8 - 8 - 8 - 8))
            (by omega) (by omega)]
        rw [show 8 + (8 + 8 + 8 + (n - 24 - (7 + 1) - 8) + 0 + 0 + 0) = n - 8 from by omega,
          show 8 + 8 + 8 + (n - 24 - (7 + 1) - 8) + 0 + 0 + 0 = n - 16 from by omega,
          show 8 + 8 + (n - 24 - (7 + 1) - 8) + 0 + 0 + 0 = n - 24 from by omega,
          show 8 + (n - 24 - (7 + 1) - 8) + 0 + 0 + 0 = n - 32 from by omega,
          show (n - 24 - (7 + 1) - 8) + 0 + 0 + 0 = n - 40 from by omega,
          show n - 24 - (7 + 1) - 8 = n - 40 from by omega,
  show n - 8 - 8 - 8 - 8 - 8 = n - 40 from by omega,
          show n - 8 - 8 - 8 - 8 = n - 32 from by omega,
          show n - 8 - 8 - 8 = n - 24 from by omega,
          show n - 8 - 8 = n - 16 from by omega]
        rw [maskM (7 + 1) (n - 8) 18446744073709551616
            (by rw [show 7 + 1 + (n - 8) = n from by omega]
                exact pow2_le_of_le 64 _ h2 (by norm_num)),
          maskM 8 (n - 16) 18446744073709551616
            (by exact pow2_le_of_le 64 _ (by omega) (by norm_num)),
          maskM 8 (n - 24) 18446744073709551616
            (by exact pow2_le_of_le 64 _ (by omega) (by norm_num)),
          maskM 8 (n - 32) 18446744073709551616
            (by exact pow2_le_of_le 64 _ (by omega) (by norm_num)),
          maskM 8 (n - 40) 18446744073709551616
            (by exact pow2_le_of_le 64 _ (by omega) (by norm_num)),
          maskM (n - 40) 0 18446744073709551616
            (by exact pow2_le_of_le 64 _ (by omega) (by norm_num))]
        rw [frag_val_hi v (7 + 1) (n - 8) (by norm_num),
          frag_val_mid v 8 (n - 16) (le_refl 8),
          frag_val_mid v 8 (n - 24) (le_refl 8),
          frag_val_mid v 8 (n - 32) (le_refl 8),
          frag_val_mid v 8 (n - 40) (le_refl 8),
          frag_val_mid v (n - 40) 0 (by omega)]
        rw [show (2:Nat) ^ (7 + 1) = 256 from by norm_num,
          show (8:Nat) - 8 = 0 from rfl, pow_zero, mul_one, Nat.div_one]
        rw [Nat.mod_mod,
          mod_mod_pow v (n - 16) (n - 8) (by omega),
          mod_mod_pow v (n - 24) (n - 16) (by omega),
          mod_mod_pow v (n - 32) (n - 24) (by omega),
          mod_mod_pow v (n - 40) (n - 32) (by omega),
          mod_div_byte v (n - 16) (n - 8) (by omega),
          mod_div_byte v (n - 24) (n - 16) (by omega),
          mod_div_byte v (n - 32) (n - 24) (by omega),
          mod_div_byte v (n - 40) (n - 32) (by omega)]
        simp only [Nat.mul_one, List.cons_append, List.singleton_append, List.nil_append]
      · simp only [if_neg hfull]
        refine ⟨_, rfl, Or.inl ?_⟩
        simp only [Writer.Flush, List.nil_append, List.singleton_append, List.cons_append,
          List.append_nil, Nat.zero_or]
        rw [beBytes_gt n v (by omega),
          beBytes_gt (n - 8) (v % 2 ^ (n - 8)) (by omega),
          beBytes_gt (n - 8 - 8) ((v % 2 ^ (n - 8)) % 2 ^ (n - 8 - 8)) (by omega),
          beBytes_gt (n - 8 - 8 - 8) (((v % 2 ^ (n - 8)) % 2 ^ (n - 8 - 8)) % 2 ^ (n - 8 - 8 - 8)) (by omega),
          beBytes_gt (n - 8 - 8 - 8 - 8) ((((v % 2 ^ (n - 8)) % 2 ^ (n - 8 - 8)) % 2 ^ (n - 8 - 8 - 8)) % 2 ^ (n - 8 - 8 - 8 - 8)) (by omega),
          beBytes_le (n - 8 - 8 - 8 - 8 - 8) (((((v % 2 ^ (n - 8)) % 2 ^ (n - 8 - 8)) % 2 ^ (n - 8 - 8 - 8)) % 2 ^ (n - 8 - 8 - 8 - 8)) % 2 ^ (n - 8 - 8 - 8 - 8 - 8))
            (by omega) (by omega)]
        rw [show 8 + (8 + 8 + 8 + (n - 24 - (7 + 1) - 8) + 0 + 0 + 0) = n - 8 from by omega,
          show 8 + 8 + 8 + (n - 24 - (7 + 1) - 8) + 0 + 0 + 0 = n - 16 from by omega,
          show 8 + 8 + (n - 24 - (7 + 1) - 8) + 0 + 0 + 0 = n - 24 from by omega,
          show 8 + (n - 24 - (7 + 1) - 8) + 0 + 0 + 0 = n - 32 from by omega,
          show (n - 24 - (7 + 1) - 8) + 0 + 0 + 0 = n - 40 from by omega,
          show n - 24 - (7 + 1) - 8 = n - 40 from by omega,
  show n - 8 - 8 - 8 - 8 - 8 = n - 40 from by omega,
          show n - 8 - 8 - 8 - 8 = n - 32 from by omega,
          show n - 8 - 8 - 8 = n - 24 from by omega,
          show n - 8 - 8 = n - 16 from by omega]
        rw [maskM (7 + 1) (n - 8) 18446744073709551616
            (by rw [show 7 + 1 + (n - 8) = n from by omega]
                exact pow2_le_of_le 64 _ h2 (by norm_num)),
          maskM 8 (n - 16) 18446744073709551616
            (by exact pow2_le_of_le 64 _ (by omega) (by norm_num)),
          maskM 8 (n - 24) 18446744073709551616
            (by exact pow2_le_of_le 64 _ (by omega) (by norm_num)),
          maskM 8 (n - 32) 18446744073709551616
            (by exact pow2_le_of_le 64 _ (by omega) (by norm_num)),
          maskM 8 (n - 40) 18446744073709551616
            (by exact pow2_le_of_le 64 _ (by omega) (by norm_num)),
          maskM (n - 40) 0 18446744073709551616
            (by exact pow2_le_of_le 64 _ (by omega) (by norm_num))]
        rw [frag_val_hi v (7 + 1) (n - 8) (by norm_num),
          frag_val_mid v 8 (n - 16) (le_refl 8),
          frag_val_mid v 8 (n - 24) (le_refl 8),
          frag_val_mid v 8 (n - 32) (le_refl 8),
          frag_val_mid v 8 (n - 40) (le_refl 8),
          frag_val_mid v (n - 40) 0 (by omega)]
        rw [show (2:Nat) ^ (7 + 1) = 256 from by norm_num,
          show (8:Nat) - 8 = 0 from rfl, pow_zero, mul_one, Nat.div_one]
        rw [Nat.mod_mod,
          mod_mod_pow v (n - 16) (n - 8) (by omega),
          mod_mod_pow v (n - 24) (n - 16) (by omega),
          mod_mod_pow v (n - 32) (n - 24) (by omega),
          mod_mod_pow v (n - 40) (n - 32) (by omega),
          mod_div_byte v (n - 16) (n - 8) (by omega),
          mod_div_byte v (n - 24) (n - 16) (by omega),
          mod_div_byte v (n - 32) (n - 24) (by omega),
          mod_div_byte v (n - 40) (n - 32) (by omega)]
        simp only [Nat.mul_one]
  · simp only [if_neg hc5, if_neg (show ¬(8:Nat) < 0 by norm_num),
      if_pos (show (0:Nat) = 0 from rfl)]
    by_cases hfull : n - 24 - (7 + 1) = 8
    · simp only [if_pos hfull]
      refine ⟨_, rfl, Or.inr ?_⟩
      simp only [Writer.Flush, List.nil_append, List.singleton_append, List.cons_append,
        List.append_nil, Nat.zero_or]
      rw [beBytes_gt n v (by omega),
        beBytes_gt (n - 8) (v % 2 ^ (n - 8)) (by omega),
        beBytes_gt (n - 8 - 8) ((v % 2 ^ (n - 8)) % 2 ^ (n - 8 - 8)) (by omega),
        beBytes_gt (n - 8 - 8 - 8) (((v % 2 ^ (n - 8)) % 2 ^ (n - 8 - 8)) % 2 ^ (n - 8 - 8 - 8)) (by omega),
        beBytes_le (n - 8 - 8 - 8 - 8) ((((v % 2 ^ (n - 8)) % 2 ^ (n - 8 - 8)) % 2 ^ (n - 8 - 8 - 8)) % 2 ^ (n - 8 - 8 - 8 - 8))
          (by omega) (by omega)]
      rw [show 8 + (8 + 8 + (n - 24 - (7 + 1)) + 0 + 0 + 0 + 0) = n - 8 from by omega,
        show 8 + 8 + (n - 24 - (7 + 1)) + 0 + 0 + 0 + 0 = n - 16 from by omega,
        show 8 + (n - 24 - (7 + 1)) + 0 + 0 + 0 + 0 = n - 24 from by omega,
        show (n - 24 - (7 + 1)) + 0 + 0 + 0 + 0 = n - 32 from by omega,
        show n - 24 - (7 + 1) = n - 32 from by omega,
  show n - 8 - 8 - 8 - 8 = n - 32 from by omega,
        show n - 8 - 8 - 8 = n - 24 from by omega,
        show n - 8 - 8 = n - 16 from by omega]
      rw [maskM (7 + 1) (n - 8) 18446744073709551616
          (by rw [show 7 + 1 + (n - 8) = n from by omega]
              exact pow2_le_of_le 64 _ h2 (by norm_num)),
        maskM 8 (n - 16) 18446744073709551616
          (by exact pow2_le_of_le 64 _ (by omega) (by norm_num)),
        maskM 8 (n - 24) 18446744073709551616
          (by exact pow2_le_of_le 64 _ (by omega) (by norm_num)),
        maskM 8 (n - 32) 18446744073709551616
          (by exact pow2_le_of_le 64 _ (by omega) (by norm_num)),
        maskM (n - 32) 0 18446744073709551616
          (by exact pow2_le_of_le 64 _ (by omega) (by norm_num))]
      rw [frag_val_hi v (7 + 1) (n - 8) (by norm_num),
        frag_val_mid v 8 (n - 16) (le_refl 8),
        frag_val_mid v 8 (n - 24) (le_refl 8),
        frag_val_mid v 8 (n - 32) (le_refl 8),
        frag_val_mid v (n - 32) 0 (by omega)]
      rw [show (2:Nat) ^ (7 + 1) = 256 from by norm_num,
        show (8:Nat) - 8 = 0 from rfl, pow_zero, mul_one, Nat.div_one]
      rw [Nat.mod_mod,
        mod_mod_pow v (n - 16) (n - 8) (by omega),
        mod_mod_pow v (n - 24) (n - 16) (by omega),
        mod_mod_pow v (n - 32) (n - 24) (by omega),
        mod_div_byte v (n - 16) (n - 8) (by omega),
        mod_div_byte v (n - 24) (n - 16) (by omega),
        mod_div_byte v (n - 32) (n - 24) (by omega)]
      simp only [Nat.mul_one, List.cons_append, List.singleton_append, List.nil_append]
    · simp only [if_neg hfull]
      refine ⟨_, rfl, Or.inl ?_⟩
      simp only [Writer.Flush, List.nil_append, List.singleton_append, List.cons_append,
        List.append_nil, Nat.zero_or]
      rw [beBytes_gt n v (by omega),
        beBytes_gt (n - 8) (v % 2 ^ (n - 8)) (by omega),
        beBytes_gt (n - 8 - 8) ((v % 2 ^ (n - 8)) % 2 ^ (n - 8 - 8)) (by omega),
        beBytes_gt (n - 8 - 8 - 8) (((v % 2 ^ (n - 8)) % 2 ^ (n - 8 - 8)) % 2 ^ (n - 8 - 8 - 8)) (by omega),
        beBytes_le (n - 8 - 8 - 8 - 8) ((((v % 2 ^ (n - 8)) % 2 ^ (n - 8 - 8)) % 2 ^ (n - 8 - 8 - 8)) % 2 ^ (n - 8 - 8 - 8 - 8))
          (by omega) (by omega)]
      rw [show 8 + (8 + 8 + (n - 24 - (7 + 1)) + 0 + 0 + 0 + 0) = n - 8 from by omega,
        show 8 + 8 + (n - 24 - (7 + 1)) + 0 + 0 + 0 + 0 = n - 16 from by omega,
        show 8 + (n - 24 - (7 + 1)) + 0 + 0 + 0 + 0 = n - 24 from by omega,
        show (n - 24 - (7 + 1)) + 0 + 0 + 0 + 0 = n - 32 from by omega,
        show n - 24 - (7 + 1) = n - 32 from by omega,
  show n - 8 - 8 - 8 - 8 = n - 32 from by omega,
        show n - 8 - 8 - 8 = n - 24 from by omega,
        show n - 8 - 8 = n - 16 from by omega]
      rw [maskM (7 + 1) (n - 8) 18446744073709551616
          (by rw [show 7 + 1 + (n - 8) = n from by omega]
              exact pow2_le_of_le 64 _ h2 (by norm_num)),
        maskM 8 (n - 16) 18446744073709551616
          (by exact pow2_le_of_le 64 _ (by omega) (by norm_num)),
        maskM 8 (n - 24) 18446744073709551616
          (by exact pow2_le_of_le 64 _ (by omega) (by norm_num)),
        maskM 8 (n - 32) 18446744073709551616
          (by exact pow2_le_of_le 64 _ (by omega) (by norm_num)),
        maskM (n - 32) 0 18446744073709551616
          (by exact pow2_le_of_le 64 _ (by omega) (by norm_num))]
      rw [frag_val_hi v (7 + 1) (n - 8) (by norm_num),
        frag_val_mid v 8 (n - 16) (le_refl 8),
        frag_val_mid v 8 (n - 24) (le_refl 8),
        frag_val_mid v 8 (n - 32) (le_refl 8),
        frag_val_mid v (n - 32) 0 (by omega)]
      rw [show (2:Nat) ^ (7 + 1) = 256 from by norm_num,
        show (8:Nat) - 8 = 0 from rfl, pow_zero, mul_one, Nat.div_one]
      rw [Nat.mod_mod,
        mod_mod_pow v (n - 16) (n - 8) (by omega),
        mod_mod_pow v (n - 24) (n - 16) (by omega),
        mod_mod_pow v (n - 32) (n - 24) (by omega),
        mod_div_byte v (n - 16) (n - 8) (by omega),
        mod_div_byte v (n - 24) (n - 16) (by omega),
        mod_div_byte v (n - 32) (n - 24) (by omega)]
      simp only [Nat.mul_one]

/-- On a fresh writer, `WriteNBitsOfUint64 n v` succeeds for any `1 ≤ n ≤ 64`
and `v < 2^n`, and the flushed output is the big-endian byte image of `v`
(possibly followed by one zero byte of padding). -/
theorem write64_full (n v : Nat) (h1 : 1 ≤ n) (h2 : n ≤ 64) (hv : v < 2 ^ n) :
    ∃ w', (NewWriter []).WriteNBitsOfUint64 n v = (.ok (), w') ∧
      (w'.Flush.dst = beBytes n v ∨ w'.Flush.dst = beBytes n v ++ [0]) := by
  by_cases h32 : 32 < n
  · exact write64_fresh n v h32 h2 hv
  · have hle : n ≤ 32 := by omega
    have hv32 : v < 4294967296 := lt_of_lt_of_le hv (by
      calc (2:Nat) ^ n ≤ 2 ^ 32 := Nat.pow_le_pow_right (by norm_num) hle
        _ = 4294967296 := by norm_num)
    have hd : (NewWriter []).WriteNBitsOfUint64 n v =
        (NewWriter []).WriteNBitsOfUint32 n v := by
      unfold Writer.WriteNBitsOfUint64
      rw [if_neg (by omega), if_pos hle, Nat.mod_eq_of_lt hv32]
    rw [hd]
    by_cases h16 : 16 < n
    · exact write32_fresh n v h16 hle hv
    · have hle16 : n ≤ 16 := by omega
      have hv16 : v < 65536 := lt_of_lt_of_le hv (by
        calc (2:Nat) ^ n ≤ 2 ^ 16 := Nat.pow_le_pow_right (by norm_num) hle16
          _ = 65536 := by norm_num)
      have hd2 : (NewWriter []).WriteNBitsOfUint32 n v =
          (NewWriter []).WriteNBitsOfUint16 n v := by
        unfold Writer.WriteNBitsOfUint32
        rw [if_neg (by omega), if_pos hle16, Nat.mod_eq_of_lt hv16]
      rw [hd2]
      by_cases h8 : 8 < n
      · exact write16_fresh n v h8 hle16 hv
      · have hle8 : n ≤ 8 := by omega
        have hv8 : v < 256 := lt_of_lt_of_le hv (by
          calc (2:Nat) ^ n ≤ 2 ^ 8 := Nat.pow_le_pow_right (by norm_num) hle8
            _ = 256 := by norm_num)
        have hd3 : (NewWriter []).WriteNBitsOfUint16 n v =
            (NewWriter []).WriteNBitsOfUint8 n v := by
          unfold Writer.WriteNBitsOfUint16
          rw [if_neg (by omega), if_pos hle8, Nat.mod_eq_of_lt hv8]
        rw [hd3]
        exact write8_fresh n v h1 hle8 hv

/-- A fresh reader over a nonempty source of at most the default buffer
size fills its whole source into the buffer on the first refill. -/
theorem fill_fresh (src : List Nat) (hne : src.isEmpty = false)
    (hlen : src.length ≤ 1024) :
    (NewReader src none).fillBufIfNeeded = (.ok (),
      { src := [], buf := src ++ List.replicate (1024 - src.length) 0,
        bufLen := src.length, currByteIndex := 0, currBitIndex := 7,
        opt := none }) := by
  unfold Reader.fillBufIfNeeded NewReader Reader.isBufEmpty Reader.fillBuf
  dsimp only
  rw [if_pos (by norm_num), if_neg (by rw [hne]; exact Bool.false_ne_true),
    show GetBufferSize none = 1024 from rfl]
  rw [List.take_of_length_le hlen, List.drop_eq_nil_of_le hlen,
    Nat.min_eq_right hlen]

/-- Reading n bits with the 64-bit reader from a fresh reader over a short
byte vector yields the big-endian value of the vector's first n bits. -/
theorem read_fresh_be (dst : List Nat) (n v : Nat) (h1 : 1 ≤ n) (h2 : n ≤ 64)
    (hlen : dst.length ≤ 1024) (hne : dst.isEmpty = false)
    (hb : ∀ b ∈ dst, b < 256) (hav : n ≤ 8 * dst.length)
    (hval : bitsVal dst 0 n = v) :
    ∃ r', (NewReader dst none).ReadNBitsAsUint64BE n = (.ok v, r') := by
  have hfill := fill_fresh dst hne hlen
  have hread := read64_spec n (NewReader dst none)
    { src := [], buf := dst ++ List.replicate (1024 - dst.length) 0,
      bufLen := dst.length, currByteIndex := 0, currBitIndex := 7, opt := none }
    h1 h2 hfill (le_refl 7)
    (by intro b hbm
        rcases List.mem_append.mp hbm with hmem | hmem
        · exact hb b hmem
        · rw [List.eq_of_mem_replicate hmem]; norm_num)
    (by show 8 * 0 + (7 - 7) + n ≤ 8 * dst.length
        omega)
  refine ⟨advanced
    { src := [], buf := dst ++ List.replicate (1024 - dst.length) 0,
      bufLen := dst.length, currByteIndex := 0, currBitIndex := 7,
      opt := none } n, hread.trans ?_⟩
  have hv2 : bitsVal (dst ++ List.replicate (1024 - dst.length) 0)
      (bitPos
        { src := [], buf := dst ++ List.replicate (1024 - dst.length) 0,
          bufLen := dst.length, currByteIndex := 0, currBitIndex := 7,
          opt := none }) n = v := by
    rw [show bitPos
        { src := [], buf := dst ++ List.replicate (1024 - dst.length) 0,
          bufLen := dst.length, currByteIndex := 0, currBitIndex := 7,
          opt := none } = 0 from rfl]
    rw [bitsVal_append dst _ 0 n (by omega), hval]
  rw [hv2]

/-! ### Cursor invariant preservation (spec section 3) -/

theorem GetBufferSize_pos (o : Option ReaderOptions) : 1 ≤ GetBufferSize o := by
  cases o with
  | none => norm_num [GetBufferSize, DefaultBufferSize]
  | some o =>
    unfold GetBufferSize DefaultBufferSize
    dsimp only
    by_cases h : o.BufferSize = 0
    · rw [if_pos h]; norm_num
    · rw [if_neg h]; omega

theorem forward_inv (r : Reader) (n : Nat) (h7 : r.currBitIndex ≤ 7)
    (hci : r.currByteIndex < r.bufLen) (hle : n ≤ r.currBitIndex + 1) :
    inv (r.forwardIndecies n) := by
  cases r with
  | mk s b bl ci bi o =>
    unfold Reader.forwardIndecies inv
    dsimp only at hci h7 hle ⊢
    by_cases hc : n ≤ bi
    · rw [if_pos hc]
      dsimp only
      omega
    · rw [if_neg hc]
      dsimp only
      omega

theorem mustRead_inv (r r' : Reader) (n b : Nat) (h7 : r.currBitIndex ≤ 7)
    (hci : r.currByteIndex < r.bufLen)
    (h : r.mustReadNBitsInCurrentByte n = (.ok b, r')) : inv r' := by
  unfold Reader.mustReadNBitsInCurrentByte at h
  by_cases h0 : n = 0
  · rw [if_pos h0] at h
    rw [Prod.mk.injEq] at h
    obtain ⟨-, h2⟩ := h
    subst h2
    exact ⟨h7, Or.inl hci⟩
  · rw [if_neg h0] at h
    by_cases hp : r.currBitIndex < n - 1
    · rw [if_pos hp] at h
      simp at h
    · rw [if_neg hp] at h
      dsimp only at h
      rw [Prod.mk.injEq] at h
      obtain ⟨-, h2⟩ := h
      subst h2
      exact forward_inv r n h7 hci (by omega)

theorem fill_inv (r r1 : Reader) (h7 : r.currBitIndex ≤ 7)
    (h : r.fillBufIfNeeded = (.ok (), r1)) :
    r1.currBitIndex ≤ 7 ∧ r1.currByteIndex < r1.bufLen := by
  unfold Reader.fillBufIfNeeded at h
  by_cases he : r.isBufEmpty = true
  · rw [if_pos he] at h
    unfold Reader.fillBuf at h
    dsimp only at h
    by_cases hs : r.src.isEmpty = true
    · rw [if_pos hs] at h
      simp at h
    · rw [if_neg hs] at h
      rw [Prod.mk.injEq] at h
      obtain ⟨-, h2⟩ := h
      subst h2
      refine ⟨by norm_num, ?_⟩
      dsimp only
      rw [Bool.not_eq_true] at hs
      have hl : 1 ≤ r.src.length := by
        cases hsrc : r.src with
        | nil => rw [hsrc] at hs; simp at hs
        | cons a t => simp
      have hg := GetBufferSize_pos r.opt
      omega
  · rw [if_neg he] at h
    rw [Prod.mk.injEq] at h
    obtain ⟨-, h2⟩ := h
    subst h2
    unfold Reader.isBufEmpty at he
    simp only [decide_eq_true_eq] at he
    exact ⟨h7, by omega⟩

theorem readBit_inv (r r' : Reader) (b : Nat) (hinv : inv r)
    (h : r.ReadBit = (.ok b, r')) : inv r' := by
  unfold Reader.ReadBit at h
  rcases hf : r.fillBufIfNeeded with ⟨fe | fv, r1⟩
  · rw [hf] at h
    simp at h
  · rw [hf] at h
    dsimp only at h
    obtain ⟨h71, hc1⟩ := fill_inv r r1 hinv.1 (by rw [hf])
    rw [Prod.mk.injEq] at h
    obtain ⟨-, h2⟩ := h
    subst h2
    exact forward_inv r1 1 h71 hc1 (by omega)

theorem read8_inv (n : Nat) : ∀ r r' b, inv r →
    r.ReadNBitsAsUint8 n = (.ok b, r') → inv r' := by
  induction n using Nat.strong_induction_on with
  | _ n ih =>
    intro r r' b hinv h
    unfold Reader.ReadNBitsAsUint8 at h
    by_cases h0 : n = 0
    · rw [if_pos h0] at h
      rw [Prod.mk.injEq] at h
      obtain ⟨-, h2⟩ := h
      subst h2
      exact hinv
    · rw [if_neg h0] at h
      by_cases h8 : 8 < n
      · rw [if_pos h8] at h
        simp at h
      · rw [if_neg h8] at h
        rcases hf : r.fillBufIfNeeded with ⟨fe | fv, r1⟩
        · rw [hf] at h
          simp at h
        · rw [hf] at h
          dsimp only at h
          obtain ⟨h71, hc1⟩ := fill_inv r r1 hinv.1 (by rw [hf])
          by_cases hle : n ≤ r1.currBitIndex + 1
          · rw [dif_pos hle] at h
            exact mustRead_inv r1 r' n b h71 hc1 h
          · rw [dif_neg hle] at h
            rcases hm : r1.mustReadNBitsInCurrentByte (r1.currBitIndex + 1)
              with ⟨me | mb, r2⟩
            · rw [hm] at h
              simp at h
            · rw [hm] at h
              dsimp only at h
              have hinv2 : inv r2 :=
                mustRead_inv r1 r2 (r1.currBitIndex + 1) mb h71 hc1 hm
              rcases h9 : r2.ReadNBitsAsUint8 (n - (r1.currBitIndex + 1))
                with ⟨re | rb2, r3⟩
              · rw [h9] at h
                simp at h
              · rw [h9] at h
                dsimp only at h
                rw [Prod.mk.injEq] at h
                obtain ⟨-, h2⟩ := h
                subst h2
                exact ih (n - (r1.currBitIndex + 1)) (by omega) r2 _ rb2 hinv2 h9

theorem read16_inv (n : Nat) (r r' : Reader) (b : Nat) (hinv : inv r)
    (h : r.ReadNBitsAsUint16BE n = (.ok b, r')) : inv r' := by
  unfold Reader.ReadNBitsAsUint16BE at h
  by_cases h0 : n = 0
  · rw [if_pos h0] at h
    rw [Prod.mk.injEq] at h
    obtain ⟨-, h2⟩ := h
    subst h2
    exact hinv
  · rw [if_neg h0] at h
    by_cases h8 : n ≤ 8
    · rw [if_pos h8] at h
      exact read8_inv n r r' b hinv h
    · rw [if_neg h8] at h
      by_cases h16 : 16 < n
      · rw [if_pos h16] at h
        simp at h
      · rw [if_neg h16] at h
        split at h
        · simp at h
        · rename_i fv r1 heqf
          obtain ⟨h71, hc1⟩ := fill_inv r r1 hinv.1 (by rw [heqf])
          dsimp only at h
          split at h
          · simp at h
          · rename_i b1 r2 heqm
            have hinv2 : inv r2 := mustRead_inv r1 r2 _ b1 h71 hc1 heqm
            split at h
            · simp at h
            · rename_i b2 r3 heq2
              have hinv3 : inv r3 := read8_inv _ r2 r3 b2 hinv2 heq2
              split at h
              · simp at h
              · rename_i b3 r4 heq3
                rw [Prod.mk.injEq] at h
                obtain ⟨-, h2⟩ := h
                subst h2
                exact read8_inv _ r3 _ b3 hinv3 heq3

theorem read32_inv (n : Nat) (r r' : Reader) (b : Nat) (hinv : inv r)
    (h : r.ReadNBitsAsUint32BE n = (.ok b, r')) : inv r' := by
  unfold Reader.ReadNBitsAsUint32BE at h
  by_cases h0 : n = 0
  · rw [if_pos h0] at h
    rw [Prod.mk.injEq] at h
    obtain ⟨-, h2⟩ := h
    subst h2
    exact hinv
  · rw [if_neg h0] at h
    by_cases h16 : n ≤ 16
    · rw [if_pos h16] at h
      exact read16_inv n r r' b hinv h
    · rw [if_neg h16] at h
      by_cases h32 : 32 < n
      · rw [if_pos h32] at h
        simp at h
      · rw [if_neg h32] at h
        split at h
        · simp at h
        · rename_i fv r1 heqf
          obtain ⟨h71, hc1⟩ := fill_inv r r1 hinv.1 (by rw [heqf])
          dsimp only at h
          split at h
          · simp at h
          · rename_i b1 r2 heqm
            have hinv2 : inv r2 := mustRead_inv r1 r2 _ b1 h71 hc1 heqm
            split at h
            · simp at h
            · rename_i b2 r3 heq2
              have hinv3 : inv r3 := read8_inv _ r2 r3 b2 hinv2 heq2
              split at h
              · simp at h
              · rename_i b3 r4 heq3
                have hinv4 : inv r4 := read8_inv _ r3 r4 b3 hinv3 heq3
                split at h
                · simp at h
                · rename_i b4 r5 heq4
                  have hinv5 : inv r5 := read8_inv _ r4 r5 b4 hinv4 heq4
                  split at h
                  · simp at h
                  · rename_i b5 r6 heq5
                    rw [Prod.mk.injEq] at h
                    obtain ⟨-, h2⟩ := h
                    subst h2
                    exact read8_inv _ r5 _ b5 hinv5 heq5

theorem read64_inv (n : Nat) (r r' : Reader) (b : Nat) (hinv : inv r)
    (h : r.ReadNBitsAsUint64BE n = (.ok b, r')) : inv r' := by
  unfold Reader.ReadNBitsAsUint64BE at h
  by_cases h0 : n = 0
  · rw [if_pos h0] at h
    rw [Prod.mk.injEq] at h
    obtain ⟨-, h2⟩ := h
    subst h2
    exact hinv
  · rw [if_neg h0] at h
    by_cases h32 : n ≤ 32
    · rw [if_pos h32] at h
      exact read32_inv n r r' b hinv h
    · rw [if_neg h32] at h
      by_cases h64 : 64 < n
      · rw [if_pos h64] at h
        simp at h
      · rw [if_neg h64] at h
        split at h
        · simp at h
        · rename_i fv r1 heqf
          obtain ⟨h71, hc1⟩ := fill_inv r r1 hinv.1 (by rw [heqf])
          dsimp only at h
          split at h
          · simp at h
          · rename_i b1 r2 heqm
            have hinv2 : inv r2 := mustRead_inv r1 r2 _ b1 h71 hc1 heqm
            split at h
            · simp at h
            · rename_i b2 r3 heq2
              have hinv3 : inv r3 := read8_inv _ r2 r3 b2 hinv2 heq2
              split at h
              · simp at h
              · rename_i b3 r4 heq3
                have hinv4 : inv r4 := read8_inv _ r3 r4 b3 hinv3 heq3
                split at h
                · simp at h
                · rename_i b4 r5 heq4
                  have hinv5 : inv r5 := read8_inv _ r4 r5 b4 hinv4 heq4
                  split at h
                  · simp at h
                  · rename_i b5 r6 heq5
                    have hinv6 : inv r6 := read8_inv _ r5 r6 b5 hinv5 heq5
                    split at h
                    · simp at h
                    · rename_i b6 r7 heq6
                      have hinv7 : inv r7 := read8_inv _ r6 r7 b6 hinv6 heq6
                      split at h
                      · simp at h
                      · rename_i b7 r8 heq7
                        have hinv8 : inv r8 := read8_inv _ r7 r8 b7 hinv7 heq7
                        split at h
                        · simp at h
                        · rename_i b8 r9 heq8
                          have hinv9 : inv r9 := read8_inv _ r8 r9 b8 hinv8 heq8
                          split at h
                          · simp at h
                          · rename_i b9 r10 heq9
                            rw [Prod.mk.injEq] at h
                            obtain ⟨-, h2⟩ := h
                            subst h2
                            exact read8_inv _ r9 _ b9 hinv9 heq9

theorem loop_inv (n : Nat) : ∀ r r' tb tB res out, inv r →
    r.readNBitsLoop n tb tB res = (.ok out, r') → inv r' := by
  induction n using Nat.strong_induction_on with
  | _ n ih =>
    intro r r' tb tB res out hinv h
    unfold Reader.readNBitsLoop at h
    by_cases h8 : 8 ≤ n
    · rw [dif_pos h8] at h
      split at h
      · simp at h
      · rename_i fv r1 heqf
        obtain ⟨h71, hc1⟩ := fill_inv r r1 hinv.1 (by rw [heqf])
        split at h
        · simp at h
        · rename_i b1 r2 heqm
          have hinv2 : inv r2 := mustRead_inv r1 r2 _ b1 h71 hc1 heqm
          exact ih (n - 8) (by omega) r2 _ tb _ _ out hinv2 h
    · rw [dif_neg h8] at h
      rw [Prod.mk.injEq] at h
      obtain ⟨-, h2⟩ := h
      subst h2
      exact hinv

theorem readNBits_inv (n : Nat) (opt : Option ReadOptions) (r r' : Reader)
    (bs : List Nat) (hinv : inv r)
    (h : r.ReadNBits n opt = (.ok bs, r')) : inv r' := by
  unfold Reader.ReadNBits at h
  by_cases h0 : n = 0
  · rw [if_pos h0] at h
    rw [Prod.mk.injEq] at h
    obtain ⟨-, h2⟩ := h
    subst h2
    exact hinv
  · rw [if_neg h0] at h
    split at h
    · simp at h
    · rename_i fv r1 heqf
      obtain ⟨h71, hc1⟩ := fill_inv r r1 hinv.1 (by rw [heqf])
      dsimp only at h
      split at h
      · simp at h
      · rename_i t r2 heqm
        have hinv2 : inv r2 := mustRead_inv r1 r2 _ t h71 hc1 heqm
        split at h
        · simp at h
        · rename_i nRem tB1 res1 r3 heql
          have hinv3 : inv r3 := loop_inv _ r2 r3 _ _ _ _ hinv2 heql
          by_cases hrem : 0 < nRem
          · rw [if_pos hrem] at h
            split at h
            · simp at h
            · rename_i fv4 r4 heqf4
              obtain ⟨h74, hc4⟩ := fill_inv r3 r4 hinv3.1 (by rw [heqf4])
              split at h
              · simp at h
              · rename_i b5 r5 heqm5
                have hinv5 : inv r5 := mustRead_inv r4 r5 _ b5 h74 hc4 heqm5
                split at h
                · simp at h
                · rw [Prod.mk.injEq] at h
                  obtain ⟨-, h2⟩ := h
                  subst h2
                  exact hinv5
          · rw [if_neg hrem] at h
            split at h
            · simp at h
            · rw [Prod.mk.injEq] at h
              obtain ⟨-, h2⟩ := h
              subst h2
              exact hinv3

/-! ### Claim theorems -/

/-- C1: for every nBits in [1,64] and every value v < 2^nBits, writing
nBits of v with the writer from a fresh accumulator, flushing, and reading
nBits back with a fresh reader over the flushed output (both cursors at
bit position 0) yields v. -/
theorem claim_C1_roundtrip (n v : Nat) (h1 : 1 ≤ n) (h2 : n ≤ 64)
    (hv : v < 2 ^ n) :
    ∃ w r', (NewWriter []).WriteNBitsOfUint64 n v = (.ok (), w) ∧
      (NewReader w.Flush.dst none).ReadNBitsAsUint64BE n = (.ok v, r') := by
  obtain ⟨w, hw, hdst⟩ := write64_full n v h1 h2 hv
  have hlenB : (beBytes n v).length = (n + 7) / 8 := beBytes_length n v
  rcases hdst with hd | hd
  · obtain ⟨r', hr⟩ := read_fresh_be (beBytes n v) n v h1 h2
      (by rw [hlenB]; omega)
      (by cases hbe : beBytes n v with
          | nil => exfalso; rw [hbe] at hlenB; simp at hlenB; omega
          | cons a t => rfl)
      (beBytes_lt256 n v)
      (by rw [hlenB]; omega)
      (by rw [beBytes_val, Nat.mod_eq_of_lt hv])
    refine ⟨w, r', hw, ?_⟩
    rw [hd]
    exact hr
  · obtain ⟨r', hr⟩ := read_fresh_be (beBytes n v ++ [0]) n v h1 h2
      (by rw [List.length_append, hlenB]; simp; omega)
      (by cases hbe : beBytes n v with
          | nil => rfl
          | cons a t => rfl)
      (by intro x hx
          rcases List.mem_append.mp hx with hm | hm
          · exact beBytes_lt256 n v x hm
          · rw [List.mem_singleton.mp hm]; norm_num)
      (by rw [List.length_append, hlenB]; simp; omega)
      (by rw [bitsVal_append (beBytes n v) [0] 0 n (by rw [hlenB]; omega),
            beBytes_val, Nat.mod_eq_of_lt hv])
    refine ⟨w, r', hw, ?_⟩
    rw [hd]
    exact hr

/-- Witness for C1 at nBits = 13, v = 1234. -/
theorem claim_C1_roundtrip_witness :
    1 ≤ 13 ∧ 13 ≤ 64 ∧ 1234 < 2 ^ 13 ∧
      (∃ w r', (NewWriter []).WriteNBitsOfUint64 13 1234 = (.ok (), w) ∧
        (NewReader w.Flush.dst none).ReadNBitsAsUint64BE 13 = (.ok 1234, r')) :=
  ⟨by norm_num, by norm_num, by norm_num,
    claim_C1_roundtrip 13 1234 (by norm_num) (by norm_num) (by norm_num)⟩

/-- C2 (corrected): advancing the cursor by nBits decrements bit_index when
nBits ≤ bit_index, exactly as claimed; in the carry case the claimed
formulas byte_index + (nBits - remaining)/8 + 1 and
7 - ((nBits - remaining) mod 8) describe the code only when nBits -
bit_index is not a positive multiple of 8: at such multiples the code
instead leaves bit_index at the out-of-range value 8 and advances one byte
further than claimed. -/
theorem claim_C2_forward (r : Reader) (n : Nat) :
    (n ≤ r.currBitIndex →
      r.forwardIndecies n = { r with currBitIndex := r.currBitIndex - n }) ∧
    (r.currBitIndex < n → (n - r.currBitIndex) % 8 ≠ 0 →
      r.forwardIndecies n =
        { r with
          currByteIndex :=
            r.currByteIndex + (n - (r.currBitIndex + 1)) / 8 + 1,
          currBitIndex := 7 - (n - (r.currBitIndex + 1)) % 8 }) ∧
    (r.currBitIndex < n → (n - r.currBitIndex) % 8 = 0 →
      (r.forwardIndecies n).currBitIndex = 8 ∧
      (r.forwardIndecies n).currByteIndex =
        r.currByteIndex + (n - (r.currBitIndex + 1)) / 8 + 2) := by
  refine ⟨?_, ?_, ?_⟩
  · intro hc
    unfold Reader.forwardIndecies
    rw [if_pos hc]
  · intro hlt hm
    cases r with
    | mk s b bl ci bi o =>
      unfold Reader.forwardIndecies
      dsimp only at hlt hm ⊢
      rw [if_neg (by omega)]
      rw [Reader.mk.injEq]
      refine ⟨rfl, rfl, rfl, by omega, by omega, rfl⟩
  · intro hlt hm
    cases r with
    | mk s b bl ci bi o =>
      unfold Reader.forwardIndecies
      dsimp only at hlt hm ⊢
      rw [if_neg (by omega)]
      dsimp only
      exact ⟨by omega, by omega⟩

/-- Witness for C2 in the in-byte case and the carry case away from the
8-bit boundary. -/
theorem claim_C2_forward_witness :
    ((readerAt [18] 0 2).currBitIndex < 5 ∧
        (5 - (readerAt [18] 0 2).currBitIndex) % 8 ≠ 0) ∧
      (readerAt [18] 0 2).forwardIndecies 5 =
        { readerAt [18] 0 2 with
          currByteIndex := (readerAt [18] 0 2).currByteIndex +
            (5 - ((readerAt [18] 0 2).currBitIndex + 1)) / 8 + 1,
          currBitIndex := 7 - (5 - ((readerAt [18] 0 2).currBitIndex + 1)) % 8 } :=
  ⟨⟨by decide, by decide⟩,
    (claim_C2_forward (readerAt [18] 0 2) 5).2.1 (by decide) (by decide)⟩

/-- The original C2 formulas fail when nBits - bit_index is a positive
multiple of 8: advancing 8 bits from bit_index 0 does not land on the
claimed cursor. -/
theorem claim_C2_counterexample :
    (readerAt [18, 52, 86] 0 0).forwardIndecies 8 ≠
      { readerAt [18, 52, 86] 0 0 with
        currByteIndex := (readerAt [18, 52, 86] 0 0).currByteIndex +
          (8 - ((readerAt [18, 52, 86] 0 0).currBitIndex + 1)) / 8 + 1,
        currBitIndex :=
          7 - (8 - ((readerAt [18, 52, 86] 0 0).currBitIndex + 1)) % 8 } := by
  decide

/-- C3 (corrected): with the alignRight option set, readBits never returns
right-aligned data: for every nBits ≥ 1 and every reader state the call
fails (the authoritative version answers a not-implemented error on every
path that completes the read, and earlier failures surface their own
errors). -/
theorem claim_C3_alignRight (r : Reader) (n : Nat) (o : ReadOptions)
    (h1 : 1 ≤ n) (ha : o.AlignRight = true) (bs : List Nat) (r' : Reader) :
    r.ReadNBits n (some o) ≠ (.ok bs, r') := by
  intro h
  unfold Reader.ReadNBits at h
  rw [if_neg (by omega)] at h
  split at h
  · simp at h
  · rename_i fv r1 heqf
    dsimp only at h
    rw [ha] at h
    split at h
    · simp at h
    · rename_i t r2 heqm
      split at h
      · simp at h
      · rename_i nRem tB1 res1 r3 heql
        by_cases hrem : 0 < nRem
        · rw [if_pos hrem] at h
          split at h
          · simp at h
          · rename_i fv4 r4 heqf4
            split at h
            · simp at h
            · rw [if_pos rfl] at h
              simp at h
        · rw [if_neg hrem] at h
          rw [if_pos rfl] at h
          simp at h

/-- Witness for C3 on a concrete alignRight read. -/
theorem claim_C3_alignRight_witness :
    1 ≤ 8 ∧ (ReadOptions.mk true false).AlignRight = true ∧
      (readerAt [170] 0 7).ReadNBits 8 (some ⟨true, false⟩) ≠
        (.ok [170], readerAt [170] 0 7) :=
  ⟨by norm_num, rfl,
    claim_C3_alignRight (readerAt [170] 0 7) 8 ⟨true, false⟩ (by norm_num) rfl
      [170] (readerAt [170] 0 7)⟩

/-- The original C3 claim fails on a concrete vector: the alignRight read
answers the not-implemented error instead of right-aligned data. -/
theorem claim_C3_counterexample :
    ((readerAt [170] 0 7).ReadNBits 8 (some ⟨true, false⟩)).1 =
      .error .notImplemented := by
  norm_num [Reader.ReadNBits, Reader.readNBitsLoop, Reader.mustReadNBitsInCurrentByte,
    Reader.fillBufIfNeeded, Reader.fillBuf, Reader.isBufEmpty, Reader.forwardIndecies,
    readerAt, sub8]

/-- C4: reading 9 bits through the 8-bit reader and writing 9 bits of any
value through the 8-bit writer both fail with the width-exceeded error and
leave the reader and writer states untouched. -/
theorem claim_C4_width (r : Reader) (w : Writer) (v : Nat) :
    r.ReadNBitsAsUint8 9 = (.error .tooLarge, r) ∧
    w.WriteNBitsOfUint8 9 v = (.error .tooLarge, w) := by
  constructor
  · unfold Reader.ReadNBitsAsUint8
    rw [if_neg (by norm_num), if_pos (by norm_num)]
  · unfold Writer.WriteNBitsOfUint8
    rw [if_neg (by norm_num), if_pos (by norm_num)]

/-- C5: over source bytes 0x12 0x34 0x56 with the cursor at byte 0, bit 6,
reading 9 bits big-endian yields 0x48 and reading 16 bits from the same
start yields 0x2468. -/
theorem claim_C5_vector :
    ((readerAt [18, 52, 86] 0 6).ReadNBitsAsUint16BE 9).1 = .ok 72 ∧
    ((readerAt [18, 52, 86] 0 6).ReadNBitsAsUint16BE 16).1 = .ok 9320 := by
  have h9 := read16_spec 9 (readerAt [18, 52, 86] 0 6) (readerAt [18, 52, 86] 0 6)
    (by norm_num) (by norm_num) rfl (by decide) (by decide) (by decide)
  have h16 := read16_spec 16 (readerAt [18, 52, 86] 0 6) (readerAt [18, 52, 86] 0 6)
    (by norm_num) (by norm_num) rfl (by decide) (by decide) (by decide)
  constructor
  · rw [h9]
    rfl
  · rw [h16]
    rfl

/-- C6: with a + b ≤ 8 and both positive, reading a bits then b bits with
the 8-bit reader, continuing from the same cursor, composes to the single
(a+b)-bit read: the two results combine as (first <<< b) ||| second and
the final cursor states agree. -/
theorem claim_C6_compose (a b : Nat) (r r1 : Reader) (h1a : 1 ≤ a)
    (h1b : 1 ≤ b) (hab : a + b ≤ 8)
    (hfill : r.fillBufIfNeeded = (.ok (), r1)) (h7 : r1.currBitIndex ≤ 7)
    (hb : ∀ x ∈ r1.buf, x < 256)
    (hav : bitPos r1 + (a + b) ≤ 8 * r1.bufLen) :
    ∃ v1 v2 v12 rA rB rC,
      r.ReadNBitsAsUint8 a = (.ok v1, rA) ∧
      rA.ReadNBitsAsUint8 b = (.ok v2, rB) ∧
      r.ReadNBitsAsUint8 (a + b) = (.ok v12, rC) ∧
      ((v1 <<< b) ||| v2) = v12 ∧ rB = rC := by
  have hA := read8_spec a r r1 h1a (by omega) hfill h7 hb (by omega)
  have hfill2 : (advanced r1 a).fillBufIfNeeded = (.ok (), advanced r1 a) := by
    apply fill_noop
    simp only [advanced, advanced_bufLen]
    omega
  have hB := read8_spec b (advanced r1 a) (advanced r1 a) h1b (by omega) hfill2
    (advanced_bit_le _ _) (by rw [advanced_buf]; exact hb)
    (by rw [bitPos_advanced, advanced_bufLen]; omega)
  have hC := read8_spec (a + b) r r1 (by omega) hab hfill h7 hb hav
  refine ⟨bitsVal r1.buf (bitPos r1) a,
    bitsVal r1.buf (bitPos r1 + a) b,
    bitsVal r1.buf (bitPos r1) (a + b),
    advanced r1 a, advanced r1 (a + b), advanced r1 (a + b),
    hA, ?_, hC, ?_, rfl⟩
  · rw [hB, advanced_buf, bitPos_advanced, advanced_advanced]
  · rw [Nat.shiftLeft_eq]
    exact or_last r1.buf (bitPos r1) a b

/-- Witness for C6 at a = 3, b = 4 over the concrete vector. -/
theorem claim_C6_compose_witness :
    1 ≤ 3 ∧ 1 ≤ 4 ∧ 3 + 4 ≤ 8 ∧
      (∃ v1 v2 v12 rA rB rC,
        (readerAt [18, 52, 86] 0 6).ReadNBitsAsUint8 3 = (.ok v1, rA) ∧
        rA.ReadNBitsAsUint8 4 = (.ok v2, rB) ∧
        (readerAt [18, 52, 86] 0 6).ReadNBitsAsUint8 (3 + 4) = (.ok v12, rC) ∧
        ((v1 <<< 4) ||| v2) = v12 ∧ rB = rC) :=
  ⟨by norm_num, by norm_num, by norm_num,
    claim_C6_compose 3 4 (readerAt [18, 52, 86] 0 6) (readerAt [18, 52, 86] 0 6)
      (by norm_num) (by norm_num) (by norm_num) rfl (by decide) (by decide)
      (by decide)⟩

/-- C7: the one-byte source 0xAA yields the bits 1,0,1,0,1,0,1,0 over 8
single-bit reads and the 9th read fails with the end-of-stream error. -/
theorem claim_C7_exhaustion :
    (readBitsIter (NewReader [170] none) 8).1 = .ok [1, 0, 1, 0, 1, 0, 1, 0] ∧
    ((readBitsIter (NewReader [170] none) 8).2.ReadBit).1 = .error .eof :=
  ⟨rfl, rfl⟩

/-- C8: zero-width reads and writes are no-ops across the API: they return
the zero value (nil slice for readBits), report no error, and leave the
cursor and accumulator unchanged. -/
theorem claim_C8_noop (r : Reader) (w : Writer) (opt : Option ReadOptions)
    (v : Nat) :
    r.ReadNBitsAsUint8 0 = (.ok 0, r) ∧
    r.ReadNBitsAsUint16BE 0 = (.ok 0, r) ∧
    r.ReadNBitsAsUint32BE 0 = (.ok 0, r) ∧
    r.ReadNBitsAsUint64BE 0 = (.ok 0, r) ∧
    r.ReadNBits 0 opt = (.ok [], r) ∧
    w.WriteNBitsOfUint8 0 v = (.ok (), w) ∧
    w.WriteNBitsOfUint16 0 v = (.ok (), w) ∧
    w.WriteNBitsOfUint32 0 v = (.ok (), w) ∧
    w.WriteNBitsOfUint64 0 v = (.ok (), w) := by
  refine ⟨?_, ?_, ?_, ?_, ?_, ?_, ?_, ?_, ?_⟩
  · unfold Reader.ReadNBitsAsUint8
    rw [if_pos rfl]
  · unfold Reader.ReadNBitsAsUint16BE
    rw [if_pos rfl]
  · unfold Reader.ReadNBitsAsUint32BE
    rw [if_pos rfl]
  · unfold Reader.ReadNBitsAsUint64BE
    rw [if_pos rfl]
  · unfold Reader.ReadNBits
    rw [if_pos rfl]
  · unfold Writer.WriteNBitsOfUint8
    rw [if_pos rfl]
  · unfold Writer.WriteNBitsOfUint16
    rw [if_pos rfl]
  · unfold Writer.WriteNBitsOfUint32
    rw [if_pos rfl]
  · unfold Writer.WriteNBitsOfUint64
    rw [if_pos rfl]

/-- C9: from any state satisfying the cursor invariant, every successful
public read (readBit, the uint8/16/32/64 readers, readBits) leaves the
cursor with bit index in [0,7] and byte index within the loaded buffer,
except exactly at a byte boundary where the next operation refills. -/
theorem claim_C9_invariant (r : Reader) (hinv : inv r) :
    (∀ b r', r.ReadBit = (.ok b, r') → inv r') ∧
    (∀ n b r', r.ReadNBitsAsUint8 n = (.ok b, r') → inv r') ∧
    (∀ n b r', r.ReadNBitsAsUint16BE n = (.ok b, r') → inv r') ∧
    (∀ n b r', r.ReadNBitsAsUint32BE n = (.ok b, r') → inv r') ∧
    (∀ n b r', r.ReadNBitsAsUint64BE n = (.ok b, r') → inv r') ∧
    (∀ n opt bs r', r.ReadNBits n opt = (.ok bs, r') → inv r') :=
  ⟨fun b r' h => readBit_inv r r' b hinv h,
   fun n b r' h => read8_inv n r r' b hinv h,
   fun n b r' h => read16_inv n r r' b hinv h,
   fun n b r' h => read32_inv n r r' b hinv h,
   fun n b r' h => read64_inv n r r' b hinv h,
   fun n opt bs r' h => readNBits_inv n opt r r' bs hinv h⟩

/-- Witness for C9: a concrete single-bit read from an invariant state
lands in an invariant state. -/
theorem claim_C9_invariant_witness :
    inv (readerAt [170] 0 7) ∧
      inv { src := [], buf := [170], bufLen := 1, currByteIndex := 0,
            currBitIndex := 6, opt := none } :=
  ⟨by decide,
    (claim_C9_invariant (readerAt [170] 0 7) (by decide)).1 1
      { src := [], buf := [170], bufLen := 1, currByteIndex := 0,
        currBitIndex := 6, opt := none } rfl⟩

/-- C10: a nil options pointer or a zero BufferSize field selects the
default buffer size 1024; a nonzero BufferSize is used as configured; and
every refill allocates a buffer of exactly the effective size, loading
min(size, available) bytes. -/
theorem claim_C10_bufsize (r : Reader) (o : ReaderOptions) :
    GetBufferSize none = 1024 ∧
    (o.BufferSize = 0 → GetBufferSize (some o) = 1024) ∧
    (o.BufferSize ≠ 0 → GetBufferSize (some o) = o.BufferSize) ∧
    (r.src.isEmpty = false →
      r.fillBuf.2.buf.length = GetBufferSize r.opt ∧
      r.fillBuf.2.bufLen = min (GetBufferSize r.opt) r.src.length) := by
  refine ⟨rfl, ?_, ?_, ?_⟩
  · intro h
    unfold GetBufferSize
    dsimp only
    rw [if_pos h]
    rfl
  · intro h
    unfold GetBufferSize
    dsimp only
    rw [if_neg h]
  · intro h
    unfold Reader.fillBuf
    dsimp only
    rw [if_neg (by rw [h]; exact Bool.false_ne_true)]
    dsimp only
    constructor
    · rw [List.length_append, List.length_take, List.length_replicate]
      omega
    · rfl

/-- Witness for C10 with a zero BufferSize option and a one-byte source
refilled at the default size. -/
theorem claim_C10_bufsize_witness :
    GetBufferSize (some ⟨0⟩) = 1024 ∧
      (NewReader [5] none).src.isEmpty = false ∧
      (NewReader [5] none).fillBuf.2.buf.length =
        GetBufferSize (NewReader [5] none).opt :=
  ⟨(claim_C10_bufsize (NewReader [5] none) ⟨0⟩).2.1 rfl, rfl,
    ((claim_C10_bufsize (NewReader [5] none) ⟨0⟩).2.2.2 rfl).1⟩

end Bitstream
